import Mathlib

/-!
Verification of the whatsappweb-rs session and message-framing engine.

The Rust sources are shallowly embedded: byte streams are `List Nat` (each
element a byte value), Rust `String`s are their UTF-8 byte lists, fallible
code returns `Option`, stateful code is explicit state passing, and machine
integer casts are `% 2^w`.  External cryptographic primitives (the `ring`
and `rust-crypto` crates) are abstract function parameters collected in
`CryptoPrims`; everything the repository itself implements is translated
definition by definition from the source files.
-/

set_option maxHeartbeats 1000000
set_option maxRecDepth 200000

/-- UTF-8 bytes of an ASCII Lean string literal (all source tokens are ASCII,
so code points and UTF-8 bytes coincide). -/
def strBytes (s : String) : List Nat := s.data.map Char.toNat

/-- Continuation byte test for UTF-8 validation: `0x80..0xBF`. -/
def isUtf8Cont (b : Nat) : Bool := 128 ≤ b && b ≤ 191

/-- Standard UTF-8 validity check (RFC 3629: no overlong forms, no
surrogates, maximum U+10FFFF), mirroring what Rust `String::from_utf8`
accepts in `node_wire.rs`. -/
def isValidUtf8 : List Nat → Bool
  | [] => true
  | b :: rest =>
    if b ≤ 127 then isValidUtf8 rest
    else if 194 ≤ b ∧ b ≤ 223 then
      match rest with
      | c1 :: r => isUtf8Cont c1 && isValidUtf8 r
      | [] => false
    else if b = 224 then
      match rest with
      | c1 :: c2 :: r => (160 ≤ c1 && c1 ≤ 191) && isUtf8Cont c2 && isValidUtf8 r
      | _ => false
    else if (225 ≤ b ∧ b ≤ 236) ∨ b = 238 ∨ b = 239 then
      match rest with
      | c1 :: c2 :: r => isUtf8Cont c1 && isUtf8Cont c2 && isValidUtf8 r
      | _ => false
    else if b = 237 then
      match rest with
      | c1 :: c2 :: r => (128 ≤ c1 && c1 ≤ 159) && isUtf8Cont c2 && isValidUtf8 r
      | _ => false
    else if b = 240 then
      match rest with
      | c1 :: c2 :: c3 :: r =>
        (144 ≤ c1 && c1 ≤ 191) && isUtf8Cont c2 && isUtf8Cont c3 && isValidUtf8 r
      | _ => false
    else if 241 ≤ b ∧ b ≤ 243 then
      match rest with
      | c1 :: c2 :: c3 :: r => isUtf8Cont c1 && isUtf8Cont c2 && isUtf8Cont c3 && isValidUtf8 r
      | _ => false
    else if b = 244 then
      match rest with
      | c1 :: c2 :: c3 :: r =>
        (128 ≤ c1 && c1 ≤ 143) && isUtf8Cont c2 && isUtf8Cont c3 && isValidUtf8 r
      | _ => false
    else false

/-- `lib.rs` `Jid` — `id` holds the UTF-8 bytes of the Rust `String`. -/
structure Jid where
  id : List Nat
  is_group : Bool
deriving DecidableEq

/-- `node_wire.rs` token dictionary `TOKENS` (159 entries), as byte strings. -/
def TOKENS : List (List Nat) :=
  ["200", "400", "404", "500", "501", "502", "action", "add",
   "after", "archive", "author", "available", "battery", "before", "body",
   "broadcast", "chat", "clear", "code", "composing", "contacts", "count",
   "create", "debug", "delete", "demote", "duplicate", "encoding", "error",
   "false", "filehash", "from", "g.us", "group", "groups_v2", "height", "id",
   "image", "in", "index", "invis", "item", "jid", "kind", "last", "leave",
   "live", "log", "media", "message", "mimetype", "missing", "modify", "name",
   "notification", "notify", "out", "owner", "participant", "paused",
   "picture", "played", "presence", "preview", "promote", "query", "raw",
   "read", "receipt", "received", "recipient", "recording", "relay",
   "remove", "response", "resume", "retry", "c.us", "seconds",
   "set", "size", "status", "subject", "subscribe", "t", "text", "to", "true",
   "type", "unarchive", "unavailable", "url", "user", "value", "web", "width",
   "mute", "read_only", "admin", "creator", "short", "update", "powersave",
   "checksum", "epoch", "block", "previous", "409", "replaced", "reason",
   "spam", "modify_tag", "message_info", "delivery", "emoji", "title",
   "description", "canonical-url", "matched-text", "star", "unstar",
   "media_key", "filename", "identity", "unread", "page", "page_count",
   "search", "media_message", "security", "call_log", "profile", "ciphertext",
   "invite", "gif", "vcard", "frequent", "privacy", "blacklist", "whitelist",
   "verify", "location", "document", "elapsed", "revoke_invite", "expiration",
   "unsubscribe", "disable", "vname", "old_jid", "new_jid", "announcement",
   "locked", "prop", "label", "color", "call", "offer", "call-id"].map strBytes

def LIST_EMPTY : Nat := 0
def DICTIONARY_0 : Nat := 236
def DICTIONARY_1 : Nat := 237
def DICTIONARY_2 : Nat := 238
def DICTIONARY_3 : Nat := 239
def LIST_8 : Nat := 248
def LIST_16 : Nat := 249
def JID_PAIR : Nat := 250
def HEX_8 : Nat := 251
def BINARY_8 : Nat := 252
def BINARY_20 : Nat := 253
def BINARY_32 : Nat := 254
def NIBBLE_8 : Nat := 255

mutual
/-- `node_wire.rs` `NodeContent` — text variants carry UTF-8 bytes. -/
inductive NodeContent where
  | none : NodeContent
  | list : List Node → NodeContent
  | str : List Nat → NodeContent
  | binary : List Nat → NodeContent
  | jid : Jid → NodeContent
  | token : List Nat → NodeContent
  | nibble : List Nat → NodeContent
/-- `node_wire.rs` `Node`.  The Rust attribute `HashMap` is modelled as the
association list in serialization-iteration order; map equality coincides
with list equality for the round-trip theorems because deserialization
rebuilds the entries in exactly the order in which they were written. -/
inductive Node where
  | mk : List Nat → List (List Nat × NodeContent) → NodeContent → Node
end

def Node.desc : Node → List Nat
  | .mk d _ _ => d

def Node.attributes : Node → List (List Nat × NodeContent)
  | .mk _ a _ => a

def Node.content : Node → NodeContent
  | .mk _ _ c => c

/-- `write_list_size`: `1...256` (a Rust inclusive range) takes the `LIST_8`
branch, so `size as u8` silently truncates 256 to the length byte 0. -/
def write_list_size (size : Nat) : List Nat :=
  if size = 0 then [LIST_EMPTY]
  else if size ≤ 256 then [LIST_8, size % 256]
  else [LIST_16, size / 256 % 256, size % 256]

/-- `write_node_binary`: BINARY_8 / BINARY_20 / BINARY_32 length header plus
the raw bytes (`(len >> k) as u8` is `len / 2^k % 256`). -/
def write_node_binary (b : List Nat) : List Nat :=
  (if b.length ≤ 255 then [BINARY_8, b.length]
   else if b.length ≤ 1048575 then
     [BINARY_20, b.length / 65536 % 256, b.length / 256 % 256, b.length % 256]
   else
     [BINARY_32, b.length / 16777216 % 256, b.length / 65536 % 256,
       b.length / 256 % 256, b.length % 256]) ++ b

/-- `char_to_nibble` — the Rust function panics on characters outside the
nibble alphabet; that dead branch is modelled as the junk value 0. -/
def char_to_nibble (c : Nat) : Nat :=
  if c = 48 then 0
  else if c = 49 then 1
  else if c = 50 then 2
  else if c = 51 then 3
  else if c = 52 then 4
  else if c = 53 then 5
  else if c = 54 then 6
  else if c = 55 then 7
  else if c = 56 then 8
  else if c = 57 then 9
  else if c = 45 then 10
  else if c = 46 then 11
  else if c = 0 then 15
  else 0

/-- The nibble-packing loop of `write_node_content`: pairs are emitted as
`hi << 4 | lo`, a trailing odd nibble as `(hi << 4) + 15`. -/
def packNibbles : List Nat → List Nat
  | [] => []
  | [c] => [char_to_nibble c * 16 + 15]
  | c1 :: c2 :: rest => (char_to_nibble c1 * 16 + char_to_nibble c2) :: packNibbles rest

/-- The `NodeContent::Nibble` arm of `write_node_content`: the length byte is
`(len as u8 % 2) << 7 | (len as u8 + 1) / 2`, computed in wrapping `u8`
arithmetic. -/
def write_nibble (s : List Nat) : List Nat :=
  NIBBLE_8 :: (s.length % 256 % 2 * 128 + (s.length % 256 + 1) % 256 / 2) :: packNibbles s

/-- The `NodeContent::Token` arm of `write_node_content`:
`TOKENS.iter().position(..).unwrap() + 3`.  The Rust `unwrap` panics when the
token is absent; that dead branch is modelled as index 0. -/
def write_token (t : List Nat) : List Nat :=
  [(TOKENS.findIdx? (fun r => r == t)).getD 0 + 3]

/-- `Jid::into_node_pair` suffix component. -/
def jidSuffix (j : Jid) : List Nat :=
  if j.is_group then strBytes "g.us" else strBytes "c.us"

/-- The `NodeContent::String` arm of `write_node_content`: a dictionary token
byte when the string is in `TOKENS`, a length-prefixed binary otherwise.
(The arm is non-recursive, so it is a named helper used by the mutual
serializer below.) -/
def write_str (s : List Nat) : List Nat :=
  match TOKENS.findIdx? (fun r => r == s) with
  | some i => [i + 3]
  | Option.none => write_node_binary s

mutual
/-- `node_wire.rs` `write_node_content`.  The `Jid` arm writes the pair as a
nibble string and a token exactly as the recursive Rust calls do; the
`String`, `Nibble` and `Token` arms are the non-recursive named helpers. -/
def write_node_content : NodeContent → List Nat
  | .none => LIST_EMPTY :: write_list_size 0
  | .list l => write_list_size (l.length % 65536) ++ write_nodes l
  | .str s => write_str s
  | .binary b => write_node_binary b
  | .jid j => JID_PAIR :: (write_nibble j.id ++ write_token (jidSuffix j))
  | .token t => write_token t
  | .nibble s => write_nibble s
/-- The per-element serialization loop of `write_list`. -/
def write_nodes : List Node → List Nat
  | [] => []
  | n :: rest => Node.serialize_stream n ++ write_nodes rest
/-- The attribute loop of `Node::serialize_stream`: name as a string value,
then the attribute value. -/
def write_attrs : List (List Nat × NodeContent) → List Nat
  | [] => []
  | (k, v) :: rest => write_str k ++ write_node_content v ++ write_attrs rest
/-- `Node::serialize_stream`: list size (`1 + 2·attrs` without content,
`2 + 2·attrs` with), description as a string value, attribute pairs, then
the content unless it is `None`.  `list_size as u16` truncates modulo 2^16. -/
def Node.serialize_stream : Node → List Nat
  | .mk desc attrs content =>
    write_list_size (((match content with | .none => 1 | _ => 2) + attrs.length * 2) % 65536) ++
      write_str desc ++ write_attrs attrs ++
      (match content with | .none => [] | c => write_node_content c)
end

/-- `node_wire.rs` `write_list` (`list.len() as u16` truncates modulo 2^16). -/
def write_list (l : List Node) : List Nat :=
  write_list_size (l.length % 65536) ++ write_nodes l

/-- `Node::serialize`. -/
def Node.serialize (n : Node) : List Nat := n.serialize_stream

/-- `stream.read_u8()`. -/
def readU8 : List Nat → Option (Nat × List Nat)
  | [] => Option.none
  | b :: rest => some (b, rest)

/-- `stream.read_exact(&mut buffer)` for a buffer of `n` bytes. -/
def read_exact (n : Nat) (s : List Nat) : Option (List Nat × List Nat) :=
  if n ≤ s.length then some (s.take n, s.drop n) else Option.none

/-- `node_wire.rs` `read_list_size` (the tag byte has already been read). -/
def read_list_size (tag : Nat) (s : List Nat) : Option (Nat × List Nat) :=
  if tag = LIST_EMPTY then some (0, s)
  else if tag = LIST_8 then readU8 s
  else if tag = LIST_16 then
    match s with
    | b1 :: b2 :: rest => some (b1 * 256 + b2, rest)
    | _ => Option.none
  else Option.none

/-- The three binary length headers shared by `read_node_content` and the
content arm of `deserialize_stream` (BINARY_20 masks the top nibble). -/
def read_binary_len (tag : Nat) (s : List Nat) : Option (Nat × List Nat) :=
  if tag = BINARY_8 then readU8 s
  else if tag = BINARY_20 then
    match s with
    | b0 :: b1 :: b2 :: rest => some (b0 % 16 * 65536 + b1 * 256 + b2, rest)
    | _ => Option.none
  else if tag = BINARY_32 then
    match s with
    | b0 :: b1 :: b2 :: b3 :: rest => some (((b0 * 256 + b1) * 256 + b2) * 256 + b3, rest)
    | _ => Option.none
  else Option.none

/-- `nibble_to_char`, returning the character code (`'\0'` is code 0);
`Option.none` is the Rust `bail!` on an invalid nibble. -/
def nibble_to_char (n : Nat) : Option Nat :=
  if n ≤ 9 then some (48 + n)
  else if n = 10 then some 45
  else if n = 11 then some 46
  else if n = 15 then some 0
  else Option.none

/-- `char::from_digit(d, 16).to_ascii_uppercase()` for a nibble. -/
def hexDigitUpper (n : Nat) : Nat := if n < 10 then 48 + n else 55 + n

/-- The NIBBLE_8 / HEX_8 loop of `read_node_content`: `count` bytes are read;
in nibble mode a 15 nibble returns the accumulated string early (leaving the
remaining bytes unread, as the Rust `return` does); exhausting the loop
yields a `String`. -/
def read_packed (hex : Bool) : Nat → List Nat → List Nat → Option (NodeContent × List Nat)
  | 0, acc, s => some (.str acc, s)
  | count + 1, acc, s =>
    match readU8 s with
    | Option.none => Option.none
    | some (byte, s1) =>
      if hex then
        read_packed hex count (acc ++ [hexDigitUpper (byte / 16 % 16), hexDigitUpper (byte % 16)]) s1
      else
        match nibble_to_char (byte / 16 % 16) with
        | Option.none => Option.none
        | some c1 =>
          if c1 = 0 then some (.nibble acc, s1)
          else
            match nibble_to_char (byte % 16) with
            | Option.none => Option.none
            | some c2 =>
              if c2 = 0 then some (.nibble (acc ++ [c1]), s1)
              else read_packed hex count (acc ++ [c1, c2]) s1

/-- `Jid::to_string` (UTF-8 bytes). -/
def Jid.to_string (j : Jid) : List Nat :=
  j.id ++ strBytes (if j.is_group then "@g.us" else "@c.us")

/-- `NodeContent::into_string` (and `into_cow`, which is the same map on the
byte level).  The Rust `List` and `Binary` arms are `unimplemented!` panics;
those dead branches are modelled as the empty string. -/
def NodeContent.into_string : NodeContent → List Nat
  | .none => []
  | .list _ => []
  | .str s => s
  | .nibble s => s
  | .binary _ => []
  | .jid j => j.to_string
  | .token t => t

/-- `NodeContent::as_str`; `List`, `Binary` and `Jid` are `unimplemented!`
panics, modelled as the empty string. -/
def NodeContent.as_str : NodeContent → List Nat
  | .none => []
  | .str s => s
  | .nibble s => s
  | .token t => t
  | _ => []

/-- `Jid::from_node_pair`. -/
def Jid.from_node_pair (id : List Nat) (surfix : List Nat) : Option Jid :=
  if surfix = strBytes "c.us" then some ⟨id, false⟩
  else if surfix = strBytes "g.us" then some ⟨id, true⟩
  else if surfix = strBytes "s.whatsapp.net" then some ⟨id, false⟩
  else if surfix = strBytes "broadcast" then some ⟨id, false⟩
  else Option.none

mutual
/-- `node_wire.rs` `Node::deserialize_stream`.  The Rust recursion terminates
because it consumes input; here every recursive call decrements the explicit
`fuel` argument, and the top-level entry point passes more fuel than any
parse of the buffer can use (at least one byte is consumed for every few
fuel steps), so the embedding agrees with the source on every input.  The
attribute count `(list_size - 1) >> 1` is wrapping `u16` arithmetic. -/
def deserialize_stream (fuel : Nat) (s : List Nat) : Option (Node × List Nat) :=
  match fuel with
  | 0 => Option.none
  | f + 1 =>
    match readU8 s with
    | Option.none => Option.none
    | some (tag0, s0) =>
      match read_list_size tag0 s0 with
      | Option.none => Option.none
      | some (list_size, s1) =>
        match read_tagged f s1 with
        | Option.none => Option.none
        | some (descC, s2) =>
          match read_attrs f ((list_size + 65535) % 65536 / 2) s2 with
          | Option.none => Option.none
          | some (attrs, s3) =>
            if list_size % 2 = 1 then some (.mk descC.into_string attrs .none, s3)
            else
              match read_content f s3 with
              | Option.none => Option.none
              | some (c, s4) => some (.mk descC.into_string attrs c, s4)
/-- The content arm of `deserialize_stream`: BINARY_8/20/32 always produce
`Binary` (no UTF-8 probing here), every other tag defers to
`read_node_content`. -/
def read_content (fuel : Nat) (s : List Nat) : Option (NodeContent × List Nat) :=
  match fuel with
  | 0 => Option.none
  | f + 1 =>
    match readU8 s with
    | Option.none => Option.none
    | some (tag, s1) =>
      match read_binary_len tag s1 with
      | some (len, s2) =>
        match read_exact len s2 with
        | some (b, s3) => some (.binary b, s3)
        | Option.none => Option.none
      | Option.none => read_node_content f tag s1
/-- `read_node_content(stream.read_u8()?, stream)` — the composition used for
descriptions, attribute names, attribute values and the two jid halves. -/
def read_tagged (fuel : Nat) (s : List Nat) : Option (NodeContent × List Nat) :=
  match fuel with
  | 0 => Option.none
  | f + 1 =>
    match readU8 s with
    | Option.none => Option.none
    | some (tag, s1) => read_node_content f tag s1
/-- The attribute loop of `deserialize_stream` (names via `into_cow`). -/
def read_attrs (fuel : Nat) (count : Nat) (s : List Nat) :
    Option (List (List Nat × NodeContent) × List Nat) :=
  match count with
  | 0 => some ([], s)
  | c + 1 =>
    match fuel with
    | 0 => Option.none
    | f + 1 =>
      match read_tagged f s with
      | Option.none => Option.none
      | some (nameC, s1) =>
        match read_tagged f s1 with
        | Option.none => Option.none
        | some (v, s2) =>
          match read_attrs f c s2 with
          | Option.none => Option.none
          | some (rest, s3) => some ((nameC.into_string, v) :: rest, s3)
/-- The element loop of `read_list`. -/
def read_nodes (fuel : Nat) (count : Nat) (s : List Nat) : Option (List Node × List Nat) :=
  match count with
  | 0 => some ([], s)
  | c + 1 =>
    match fuel with
    | 0 => Option.none
    | f + 1 =>
      match deserialize_stream f s with
      | Option.none => Option.none
      | some (n, s1) =>
        match read_nodes f c s1 with
        | Option.none => Option.none
        | some (l, s2) => some (n :: l, s2)
/-- `node_wire.rs` `read_node_content` (tag already consumed).  Token bytes
`3..=161` index `TOKENS`; dictionary tags skip one byte and yield an empty
list; BINARY_8/20/32 try UTF-8 first (`String::from_utf8`) and fall back to
`Binary`; JID_PAIR reads two tagged values; NIBBLE_8/HEX_8 unpack nibbles. -/
def read_node_content (fuel : Nat) (tag : Nat) (s : List Nat) :
    Option (NodeContent × List Nat) :=
  match fuel with
  | 0 => Option.none
  | f + 1 =>
    if 3 ≤ tag ∧ tag ≤ 161 then some (.token (TOKENS.getD (tag - 3) []), s)
    else if tag = DICTIONARY_0 ∨ tag = DICTIONARY_1 ∨ tag = DICTIONARY_2 ∨ tag = DICTIONARY_3 then
      match readU8 s with
      | some (_, s1) => some (.list [], s1)
      | Option.none => Option.none
    else if tag = LIST_EMPTY ∨ tag = LIST_8 ∨ tag = LIST_16 then
      match read_list_size tag s with
      | some (size, s1) =>
        match read_nodes f size s1 with
        | some (l, s2) => some (.list l, s2)
        | Option.none => Option.none
      | Option.none => Option.none
    else if tag = BINARY_8 ∨ tag = BINARY_20 ∨ tag = BINARY_32 then
      match read_binary_len tag s with
      | some (len, s1) =>
        match read_exact len s1 with
        | some (b, s2) => some (if isValidUtf8 b then .str b else .binary b, s2)
        | Option.none => Option.none
      | Option.none => Option.none
    else if tag = JID_PAIR then
      match read_tagged f s with
      | Option.none => Option.none
      | some (c1, s1) =>
        match read_tagged f s1 with
        | Option.none => Option.none
        | some (c2, s2) =>
          match Jid.from_node_pair c1.into_string c2.as_str with
          | some j => some (.jid j, s2)
          | Option.none => Option.none
    else if tag = NIBBLE_8 ∨ tag = HEX_8 then
      match readU8 s with
      | some (startbyte, s1) => read_packed (tag = HEX_8) (startbyte % 128) [] s1
      | Option.none => Option.none
    else Option.none
end

/-- `node_wire.rs` `read_list` (tag already consumed). -/
def read_list (fuel : Nat) (tag : Nat) (s : List Nat) : Option (List Node × List Nat) :=
  match read_list_size tag s with
  | some (size, s1) => read_nodes fuel size s1
  | Option.none => Option.none

/-- `Node::deserialize`: parse from the front of the buffer (trailing bytes
are ignored, as with the Rust `Cursor`).  At least one byte is consumed per
four fuel steps on any call chain, so `4 * (length + 1)` fuel can never be
exhausted and the result agrees with the fuel-free Rust recursion. -/
def Node.deserialize (data : List Nat) : Option Node :=
  (deserialize_stream (4 * data.length + 4) data).map Prod.fst

/-- Child count of a list-content node (0 otherwise); used to state the
LIST_8 / LIST_16 boundary behavior without full node equality. -/
def numChildren : Node → Nat
  | .mk _ _ (.list l) => l.length
  | _ => 0

/-- The nibble alphabet `0-9`, `-`, `.` (ASCII codes). -/
def isNibbleCode (c : Nat) : Bool := (48 ≤ c && c ≤ 57) || c == 45 || c == 46

/-- A value that is a Rust `String`: valid UTF-8 and short enough for its
binary length header (`len as u32` must not truncate). -/
def goodStr (s : List Nat) : Bool := isValidUtf8 s && decide (s.length < 4294967296)

/-- A jid id that survives the nibble-packed encoding: nibble alphabet only
and at most 253 characters (so the 7-bit count byte is exact). -/
def goodJidId (s : List Nat) : Bool := decide (s.length ≤ 253) && s.all isNibbleCode

/-- A nibble string that decodes back to `Nibble`: odd length (so the
encoder emits the terminating 15 nibble), nibble alphabet, at most 253
characters. -/
def goodNibble (s : List Nat) : Bool :=
  decide (s.length % 2 = 1) && decide (s.length ≤ 253) && s.all isNibbleCode

mutual
/-- Attribute values that round-trip: tokens of the dictionary, strings not
in the dictionary, binaries that are not valid UTF-8 (valid-UTF-8 binaries
decode as strings), jids with good ids, odd nibble strings.  `None` values
desynchronize the stream (two bytes written, one read) and `List` values are
outside the data model, so both are excluded. -/
def goodAttrValue : NodeContent → Bool
  | .none => false
  | .list _ => false
  | .str s => goodStr s && (TOKENS.findIdx? (fun r => r == s)).isNone
  | .binary b => !isValidUtf8 b && decide (b.length < 4294967296)
  | .jid j => goodJidId j.id
  | .token t => TOKENS.contains t
  | .nibble s => goodNibble s
/-- Node contents that round-trip: everything except `String` (which decodes
as `Binary` or `Token` in content position), with list lengths avoiding the
LIST_8 truncation at 256 and the `u16` cast. -/
def goodContent : NodeContent → Bool
  | .none => true
  | .list l => goodNodes l && decide (l.length ≠ 256) && decide (l.length < 65536)
  | .str _ => false
  | .binary b => decide (b.length < 4294967296)
  | .jid j => goodJidId j.id
  | .token t => TOKENS.contains t
  | .nibble s => goodNibble s
def goodNodes : List Node → Bool
  | [] => true
  | n :: rest => goodNode n && goodNodes rest
def goodAttrs : List (List Nat × NodeContent) → Bool
  | [] => true
  | (k, v) :: rest => goodStr k && goodAttrValue v && goodAttrs rest
/-- Nodes that round-trip: good description, attributes and content, and a
header list size avoiding 256 (LIST_8 truncation) and the `u16` cast. -/
def goodNode : Node → Bool
  | .mk desc attrs c =>
    goodStr desc && goodAttrs attrs && goodContent c &&
      decide ((match c with | .none => 1 | _ => 2) + attrs.length * 2 ≠ 256) &&
      decide ((match c with | .none => 1 | _ => 2) + attrs.length * 2 < 65536)
end

mutual
/-- Fuel sufficient for `deserialize_stream` on a (good) serialized node. -/
def dsNeed : Node → Nat
  | .mk _ attrs c => 3 + raNeed attrs + rcNeed c
/-- Fuel sufficient for `read_content` on a (good) serialized content value. -/
def rcNeed : NodeContent → Nat
  | .list l => 2 + rnodesNeed l
  | _ => 4
/-- Fuel sufficient for `read_nodes` on a (good) serialized node list. -/
def rnodesNeed : List Node → Nat
  | [] => 0
  | n :: tl => 1 + dsNeed n + rnodesNeed tl
/-- Fuel sufficient for `read_attrs` on a (good) serialized attribute list. -/
def raNeed : List (List Nat × NodeContent) → Nat
  | [] => 0
  | _ :: tl => 5 + raNeed tl
end

theorem read_exact_append (b rest : List Nat) : read_exact b.length (b ++ rest) = some (b, rest) := by
  unfold read_exact
  rw [if_pos (by simp)]
  rw [List.take_left, List.drop_left]

theorem readU8_cons (b : Nat) (s : List Nat) : readU8 (b :: s) = some (b, s) := rfl

theorem read_tagged_succ (f : Nat) (b : Nat) (s : List Nat) :
    read_tagged (f + 1) (b :: s) = read_node_content f b s := rfl

/-- `findIdx?` success yields an in-range index whose element satisfies the
predicate. -/
theorem findIdx?_spec (p : List Nat → Bool) :
    ∀ (l : List (List Nat)) (i : Nat), l.findIdx? p = some i →
      i < l.length ∧ p (l.getD i []) = true := by
  intro l
  induction l with
  | nil => intro i h; simp [List.findIdx?_nil] at h
  | cons a tl ih =>
    intro i h
    rw [List.findIdx?_cons] at h
    by_cases hp : p a = true
    · rw [if_pos hp] at h
      obtain rfl : (0 : Nat) = i := Option.some.inj h
      simpa using hp
    · rw [if_neg hp, List.findIdx?_succ] at h
      match hfi : tl.findIdx? p with
      | Option.none => rw [hfi] at h; simp at h
      | some j =>
        rw [hfi] at h
        obtain rfl : j + 1 = i := by simpa using h
        have := ih j hfi
        simp only [List.length_cons, List.getD]
        constructor
        · omega
        · simpa [List.getD] using this.2

/-- Membership gives a successful `findIdx?` for the equality predicate. -/
theorem findIdx?_of_mem (t : List Nat) :
    ∀ (l : List (List Nat)), t ∈ l → ∃ i, l.findIdx? (fun r => r == t) = some i := by
  intro l
  induction l with
  | nil => intro h; simp at h
  | cons a tl ih =>
    intro h
    rw [List.findIdx?_cons]
    by_cases ha : (a == t) = true
    · exact ⟨0, by rw [if_pos ha]⟩
    · have ht : t ∈ tl := by
        rcases List.mem_cons.mp h with rfl | h2
        · exact absurd (by simp) ha
        · exact h2
      obtain ⟨i, hi⟩ := ih ht
      exact ⟨i + 1, by rw [if_neg ha, List.findIdx?_succ, hi]; rfl⟩

/-- A dictionary member is found at an in-range index holding exactly it. -/
theorem tokens_find_of_mem (t : List Nat) (h : t ∈ TOKENS) :
    ∃ i, TOKENS.findIdx? (fun r => r == t) = some i ∧ i < 159 ∧ TOKENS.getD i [] = t := by
  obtain ⟨i, hi⟩ := findIdx?_of_mem t TOKENS h
  have hs := findIdx?_spec (fun r => r == t) TOKENS i hi
  refine ⟨i, hi, ?_, by simpa using hs.2⟩
  have hlen : TOKENS.length = 159 := by decide
  omega

/-- Reading back a written token byte. -/
theorem rt_read_token (f : Nat) (t : List Nat) (rest : List Nat) (ht : t ∈ TOKENS) :
    read_tagged (f + 2) (write_token t ++ rest) = some (.token t, rest) := by
  obtain ⟨i, hfind, hlt, hget⟩ := tokens_find_of_mem t ht
  unfold write_token
  rw [hfind]
  simp only [Option.getD_some, List.cons_append, List.nil_append, read_tagged_succ]
  unfold read_node_content
  rw [if_pos (by omega : 3 ≤ i + 3 ∧ i + 3 ≤ 161)]
  simp only [Nat.add_sub_cancel, Option.some.injEq, Prod.mk.injEq, and_true]
  rw [hget]

/-- The first byte of a written token is in the token tag range. -/
theorem write_token_head (t : List Nat) (ht : t ∈ TOKENS) :
    ∃ i, write_token t = [i + 3] ∧ i < 159 := by
  obtain ⟨i, hfind, hlt, _⟩ := tokens_find_of_mem t ht
  exact ⟨i, by unfold write_token; rw [hfind]; rfl, hlt⟩

theorem read_content_succ (f : Nat) (t : Nat) (s : List Nat) :
    read_content (f + 1) (t :: s) =
      match read_binary_len t s with
      | some (len, s2) =>
        match read_exact len s2 with
        | some (b, s3) => some (.binary b, s3)
        | Option.none => Option.none
      | Option.none => read_node_content f t s := rfl

theorem rnc_token_arm (f tag : Nat) (s : List Nat) (h : 3 ≤ tag ∧ tag ≤ 161) :
    read_node_content (f + 1) tag s = some (.token (TOKENS.getD (tag - 3) []), s) := by
  unfold read_node_content
  rw [if_pos h]

theorem rnc_list_arm (f tag : Nat) (s : List Nat) (h : tag = LIST_EMPTY ∨ tag = LIST_8 ∨ tag = LIST_16) :
    read_node_content (f + 1) tag s =
      match read_list_size tag s with
      | some (size, s1) =>
        match read_nodes f size s1 with
        | some (l, s2) => some (.list l, s2)
        | Option.none => Option.none
      | Option.none => Option.none := by
  unfold read_node_content
  unfold LIST_EMPTY LIST_8 LIST_16 at h
  rw [if_neg (by omega)]
  rw [if_neg (by unfold DICTIONARY_0 DICTIONARY_1 DICTIONARY_2 DICTIONARY_3; omega)]
  rw [if_pos (by unfold LIST_EMPTY LIST_8 LIST_16; omega)]

theorem rnc_binary_arm (f tag : Nat) (s : List Nat)
    (h : tag = BINARY_8 ∨ tag = BINARY_20 ∨ tag = BINARY_32) :
    read_node_content (f + 1) tag s =
      match read_binary_len tag s with
      | some (len, s1) =>
        match read_exact len s1 with
        | some (b, s2) => some (if isValidUtf8 b then .str b else .binary b, s2)
        | Option.none => Option.none
      | Option.none => Option.none := by
  unfold BINARY_8 BINARY_20 BINARY_32 at h
  unfold read_node_content
  rw [if_neg (by omega)]
  rw [if_neg (by unfold DICTIONARY_0 DICTIONARY_1 DICTIONARY_2 DICTIONARY_3; omega)]
  rw [if_neg (by unfold LIST_EMPTY LIST_8 LIST_16; omega)]
  rw [if_pos (by unfold BINARY_8 BINARY_20 BINARY_32; omega)]

theorem rnc_jid_arm (f : Nat) (s : List Nat) :
    read_node_content (f + 1) JID_PAIR s =
      match read_tagged f s with
      | Option.none => Option.none
      | some (c1, s1) =>
        match read_tagged f s1 with
        | Option.none => Option.none
        | some (c2, s2) =>
          match Jid.from_node_pair c1.into_string c2.as_str with
          | some j => some (.jid j, s2)
          | Option.none => Option.none := by
  unfold read_node_content
  rw [if_neg (by unfold JID_PAIR; omega)]
  rw [if_neg (by unfold JID_PAIR DICTIONARY_0 DICTIONARY_1 DICTIONARY_2 DICTIONARY_3; omega)]
  rw [if_neg (by unfold JID_PAIR LIST_EMPTY LIST_8 LIST_16; omega)]
  rw [if_neg (by unfold JID_PAIR BINARY_8 BINARY_20 BINARY_32; omega)]
  rw [if_pos rfl]

theorem rnc_nibble_arm (f : Nat) (s : List Nat) :
    read_node_content (f + 1) NIBBLE_8 s =
      match readU8 s with
      | some (startbyte, s1) => read_packed false (startbyte % 128) [] s1
      | Option.none => Option.none := by
  unfold read_node_content
  rw [if_neg (by unfold NIBBLE_8; omega)]
  rw [if_neg (by unfold NIBBLE_8 DICTIONARY_0 DICTIONARY_1 DICTIONARY_2 DICTIONARY_3; omega)]
  rw [if_neg (by unfold NIBBLE_8 LIST_EMPTY LIST_8 LIST_16; omega)]
  rw [if_neg (by unfold NIBBLE_8 BINARY_8 BINARY_20 BINARY_32; omega)]
  rw [if_neg (by unfold NIBBLE_8 JID_PAIR; omega)]
  rw [if_pos (by unfold NIBBLE_8 HEX_8; omega)]
  rfl

/-- The written binary header reads back to the exact length. -/
theorem read_binary_len_of_write (b rest : List Nat) (hlen : b.length < 4294967296) :
    ∃ t body, write_node_binary b = t :: body ∧
      (t = BINARY_8 ∨ t = BINARY_20 ∨ t = BINARY_32) ∧
      read_binary_len t (body ++ rest) = some (b.length, b ++ rest) := by
  unfold write_node_binary
  by_cases h1 : b.length ≤ 255
  · refine ⟨BINARY_8, b.length :: b, by rw [if_pos h1]; rfl, Or.inl rfl, ?_⟩
    unfold read_binary_len
    rw [if_pos rfl]
    rfl
  · by_cases h2 : b.length ≤ 1048575
    · refine ⟨BINARY_20, b.length / 65536 % 256 :: b.length / 256 % 256 :: b.length % 256 :: b,
        by rw [if_neg h1, if_pos h2]; rfl, Or.inr (Or.inl rfl), ?_⟩
      unfold read_binary_len
      rw [if_neg (by unfold BINARY_8 BINARY_20; omega), if_pos rfl]
      simp only [List.cons_append, Option.some.injEq, Prod.mk.injEq, and_true]
      omega
    · refine ⟨BINARY_32, b.length / 16777216 % 256 :: b.length / 65536 % 256 ::
        b.length / 256 % 256 :: b.length % 256 :: b,
        by rw [if_neg h1, if_neg h2]; rfl, Or.inr (Or.inr rfl), ?_⟩
      unfold read_binary_len
      rw [if_neg (by unfold BINARY_8 BINARY_32; omega),
        if_neg (by unfold BINARY_20 BINARY_32; omega), if_pos rfl]
      simp only [List.cons_append, Option.some.injEq, Prod.mk.injEq, and_true]
      omega

/-- Reading a written binary back through `read_node_content` (UTF-8 probe). -/
theorem rt_read_binary (f : Nat) (b rest : List Nat) (hlen : b.length < 4294967296) :
    read_tagged (f + 2) (write_node_binary b ++ rest) =
      some (if isValidUtf8 b then .str b else .binary b, rest) := by
  obtain ⟨t, body, hw, htag, hr⟩ := read_binary_len_of_write b rest hlen
  rw [hw, List.cons_append, read_tagged_succ, rnc_binary_arm (f := f) _ _ htag, hr]
  simp only [read_exact_append]

/-- Reading a written binary back through the content arm (always `Binary`). -/
theorem rt_read_content_binary (f : Nat) (b rest : List Nat) (hlen : b.length < 4294967296) :
    read_content (f + 1) (write_node_binary b ++ rest) = some (.binary b, rest) := by
  obtain ⟨t, body, hw, htag, hr⟩ := read_binary_len_of_write b rest hlen
  rw [hw, List.cons_append, read_content_succ, hr]
  simp only [read_exact_append]

/-- Characters of the nibble alphabet survive the nibble round trip and are
nonzero. -/
theorem nibble_char_roundtrip (c : Nat) (h : isNibbleCode c = true) :
    char_to_nibble c ≤ 11 ∧ nibble_to_char (char_to_nibble c) = some c ∧ c ≠ 0 := by
  have hc : c = 45 ∨ c = 46 ∨ (48 ≤ c ∧ c ≤ 57) := by
    simp only [isNibbleCode, Bool.or_eq_true, Bool.and_eq_true, decide_eq_true_eq,
      beq_iff_eq] at h
    omega
  rcases hc with rfl | rfl | ⟨h1, h2⟩
  · exact ⟨by decide, by decide, by decide⟩
  · exact ⟨by decide, by decide, by decide⟩
  · interval_cases c <;> exact ⟨by decide, by decide, by decide⟩

/-- Unpacking packed nibbles recovers the original string: a `Nibble` when
the length is odd (the encoder emits a terminating 15), a `String` when it
is even. -/
theorem read_packed_pack (s : List Nat) (h : s.all isNibbleCode = true) :
    ∀ (acc rest : List Nat),
      read_packed false ((s.length + 1) / 2) acc (packNibbles s ++ rest) =
        some ((if s.length % 2 = 1 then NodeContent.nibble (acc ++ s)
               else NodeContent.str (acc ++ s)), rest) := by
  induction s using packNibbles.induct with
  | case1 =>
    intro acc rest
    simp [read_packed, packNibbles]
  | case2 c =>
    intro acc rest
    have hc : isNibbleCode c = true := by simpa using h
    obtain ⟨hle, hrt, hne⟩ := nibble_char_roundtrip c hc
    have hlen1 : (([c] : List Nat).length + 1) / 2 = 1 := by simp
    have hpack : packNibbles [c] ++ rest = (char_to_nibble c * 16 + 15) :: rest := rfl
    rw [hlen1, hpack]
    unfold read_packed
    rw [readU8_cons]
    simp only [Bool.false_eq_true, if_false]
    rw [show (char_to_nibble c * 16 + 15) / 16 % 16 = char_to_nibble c from by omega]
    rw [show (char_to_nibble c * 16 + 15) % 16 = 15 from by omega]
    rw [hrt]
    simp [nibble_to_char, hne]
  | case3 c1 c2 tl ih =>
    intro acc rest
    have hc1 : isNibbleCode c1 = true := by
      have := List.all_eq_true.mp h c1 (by simp)
      simpa using this
    have hc2 : isNibbleCode c2 = true := by
      have := List.all_eq_true.mp h c2 (by simp)
      simpa using this
    have htl : tl.all isNibbleCode = true := by
      rw [List.all_eq_true] at h ⊢
      intro x hx
      exact h x (by simp [hx])
    obtain ⟨hle1, hrt1, hne1⟩ := nibble_char_roundtrip c1 hc1
    obtain ⟨hle2, hrt2, hne2⟩ := nibble_char_roundtrip c2 hc2
    have hcount : ((c1 :: c2 :: tl).length + 1) / 2 = (tl.length + 1) / 2 + 1 := by
      simp only [List.length_cons]
      omega
    have hpack : packNibbles (c1 :: c2 :: tl) ++ rest =
        (char_to_nibble c1 * 16 + char_to_nibble c2) :: (packNibbles tl ++ rest) := rfl
    rw [hcount, hpack]
    unfold read_packed
    rw [readU8_cons]
    simp only [Bool.false_eq_true, if_false]
    rw [show (char_to_nibble c1 * 16 + char_to_nibble c2) / 16 % 16 = char_to_nibble c1 from
      by omega]
    rw [show (char_to_nibble c1 * 16 + char_to_nibble c2) % 16 = char_to_nibble c2 from
      by omega]
    rw [hrt1, hrt2]
    simp only [Bool.false_eq_true, if_false, if_neg hne1, if_neg hne2]
    rw [ih htl (acc ++ [c1, c2]) rest]
    simp only [List.length_cons, List.append_assoc, List.cons_append, List.nil_append]
    have hmod : (tl.length + 1 + 1) % 2 = tl.length % 2 := by omega
    simp only [hmod]

/-- Reading back a written nibble string (any parity, alphabet-only, length
at most 253). -/
theorem rt_read_nibble (f : Nat) (s rest : List Nat) (hall : s.all isNibbleCode = true)
    (hlen : s.length ≤ 253) :
    read_tagged (f + 2) (write_nibble s ++ rest) =
      some ((if s.length % 2 = 1 then NodeContent.nibble s else NodeContent.str s), rest) := by
  unfold write_nibble
  rw [List.cons_append, read_tagged_succ, rnc_nibble_arm]
  rw [List.cons_append, readU8_cons]
  simp only
  have h1 : s.length % 256 = s.length := Nat.mod_eq_of_lt (by omega)
  have h2 : (s.length + 1) % 256 = s.length + 1 := Nat.mod_eq_of_lt (by omega)
  rw [show (s.length % 256 % 2 * 128 + (s.length % 256 + 1) % 256 / 2) % 128 =
    (s.length + 1) / 2 from by rw [h1, h2]; omega]
  rw [read_packed_pack s hall [] rest]
  simp

/-- Reading back a written string value: a `Token` carrying the same bytes
when the string is in the dictionary, the `String` itself otherwise — either
way `into_string`/`into_cow` recovers the bytes. -/
theorem rt_read_str (f : Nat) (s rest : List Nat) (hg : goodStr s = true) :
    ∃ c, read_tagged (f + 2) (write_str s ++ rest) = some (c, rest) ∧
      c.into_string = s := by
  unfold write_str
  match hfi : TOKENS.findIdx? (fun r => r == s) with
  | some i =>
    have hs := findIdx?_spec _ TOKENS i hfi
    have hget : TOKENS.getD i [] = s := by simpa using hs.2
    have hlen : TOKENS.length = 159 := by decide
    refine ⟨.token s, ?_, rfl⟩
    show read_tagged (f + 2) ([i + 3] ++ rest) = _
    rw [List.cons_append, List.nil_append, read_tagged_succ,
      rnc_token_arm _ _ _ (by omega : 3 ≤ i + 3 ∧ i + 3 ≤ 161)]
    rw [show i + 3 - 3 = i from by omega, hget]
  | Option.none =>
    have hutf : isValidUtf8 s = true := by
      simp only [goodStr, Bool.and_eq_true, decide_eq_true_eq] at hg
      exact hg.1
    have hlen : s.length < 4294967296 := by
      simp only [goodStr, Bool.and_eq_true, decide_eq_true_eq] at hg
      exact hg.2
    refine ⟨.str s, ?_, rfl⟩
    rw [rt_read_binary f s rest hlen, if_pos hutf]

/-- The jid suffix is in the token dictionary. -/
theorem jidSuffix_mem (j : Jid) : jidSuffix j ∈ TOKENS := by
  unfold jidSuffix
  split
  · decide
  · decide

/-- `from_node_pair` inverts `into_node_pair`. -/
theorem from_node_pair_suffix (j : Jid) : Jid.from_node_pair j.id (jidSuffix j) = some j := by
  obtain ⟨id, g⟩ := j
  cases g
  · show Jid.from_node_pair id (strBytes "c.us") = some ⟨id, false⟩
    unfold Jid.from_node_pair
    rw [if_pos rfl]
  · show Jid.from_node_pair id (strBytes "g.us") = some ⟨id, true⟩
    unfold Jid.from_node_pair
    rw [if_neg (by decide), if_pos rfl]

/-- Reading back a written jid: the id goes out as a nibble string and comes
back as `Nibble` or `String` depending on parity, and `into_string` recovers
it either way; the suffix token fixes `is_group`. -/
theorem rt_read_jid (f : Nat) (j : Jid) (rest : List Nat) (hg : goodJidId j.id = true) :
    read_tagged (f + 4) (write_node_content (.jid j) ++ rest) = some (.jid j, rest) := by
  have hall : j.id.all isNibbleCode = true := by
    simp only [goodJidId, Bool.and_eq_true, decide_eq_true_eq] at hg
    exact hg.2
  have hlen : j.id.length ≤ 253 := by
    simp only [goodJidId, Bool.and_eq_true, decide_eq_true_eq] at hg
    exact hg.1
  show read_tagged (f + 4)
    (JID_PAIR :: (write_nibble j.id ++ write_token (jidSuffix j)) ++ rest) = _
  rw [List.cons_append, read_tagged_succ, rnc_jid_arm (f + 2)]
  rw [List.append_assoc, rt_read_nibble f j.id _ hall hlen]
  simp only
  rw [rt_read_token f (jidSuffix j) rest (jidSuffix_mem j)]
  simp only
  have hinto : NodeContent.into_string
      (if j.id.length % 2 = 1 then NodeContent.nibble j.id else NodeContent.str j.id) =
      j.id := by split <;> rfl
  rw [hinto]
  show (match Jid.from_node_pair j.id (jidSuffix j) with
    | some jj => some (NodeContent.jid jj, rest)
    | Option.none => Option.none) = _
  rw [from_node_pair_suffix j]

/-- Reading back a written good attribute value gives it back exactly. -/
theorem rt_attr_value (f : Nat) (v : NodeContent) (rest : List Nat)
    (hg : goodAttrValue v = true) :
    read_tagged (f + 4) (write_node_content v ++ rest) = some (v, rest) := by
  match v with
  | .none => simp [goodAttrValue] at hg
  | .list l => simp [goodAttrValue] at hg
  | .str s =>
    have hgs : goodStr s = true ∧ TOKENS.findIdx? (fun r => r == s) = Option.none := by
      simp only [goodAttrValue, Bool.and_eq_true, Option.isNone_iff_eq_none] at hg
      exact hg
    have hutf : isValidUtf8 s = true := by
      have := hgs.1
      simp only [goodStr, Bool.and_eq_true, decide_eq_true_eq] at this
      exact this.1
    have hlen : s.length < 4294967296 := by
      have := hgs.1
      simp only [goodStr, Bool.and_eq_true, decide_eq_true_eq] at this
      exact this.2
    show read_tagged (f + 4) (write_str s ++ rest) = _
    unfold write_str
    rw [hgs.2]
    rw [rt_read_binary (f + 2) s rest hlen, if_pos hutf]
  | .binary b =>
    have hb : isValidUtf8 b = false ∧ b.length < 4294967296 := by
      simp only [goodAttrValue, Bool.and_eq_true, Bool.not_eq_true', decide_eq_true_eq] at hg
      exact hg
    show read_tagged (f + 4) (write_node_binary b ++ rest) = _
    rw [rt_read_binary (f + 2) b rest hb.2, hb.1]
    simp
  | .jid j => exact rt_read_jid f j rest hg
  | .token t =>
    have ht : t ∈ TOKENS := by simpa [goodAttrValue] using hg
    exact rt_read_token (f + 2) t rest ht
  | .nibble s =>
    have hodd : s.length % 2 = 1 := by
      simp only [goodAttrValue, goodNibble, Bool.and_eq_true, decide_eq_true_eq] at hg
      exact hg.1.1
    have hlen : s.length ≤ 253 := by
      simp only [goodAttrValue, goodNibble, Bool.and_eq_true, decide_eq_true_eq] at hg
      exact hg.1.2
    have hall : s.all isNibbleCode = true := by
      simp only [goodAttrValue, goodNibble, Bool.and_eq_true, decide_eq_true_eq] at hg
      exact hg.2
    show read_tagged (f + 4) (write_nibble s ++ rest) = _
    rw [rt_read_nibble (f + 2) s rest hall hlen, if_pos hodd]

/-- Reading back a written good attribute list gives it back in order. -/
theorem rt_attrs (a : List (List Nat × NodeContent)) :
    ∀ (f : Nat) (rest : List Nat), goodAttrs a = true → raNeed a ≤ f →
      read_attrs f a.length (write_attrs a ++ rest) = some (a, rest) := by
  induction a with
  | nil =>
    intro f rest _ _
    show read_attrs f 0 rest = some ([], rest)
    unfold read_attrs
    rfl
  | cons kv tl ih =>
    obtain ⟨k, v⟩ := kv
    intro f rest hg hf
    have hgk : goodStr k = true := by
      simp only [goodAttrs, Bool.and_eq_true] at hg
      exact hg.1.1
    have hgv : goodAttrValue v = true := by
      simp only [goodAttrs, Bool.and_eq_true] at hg
      exact hg.1.2
    have hgtl : goodAttrs tl = true := by
      simp only [goodAttrs, Bool.and_eq_true] at hg
      exact hg.2
    have hf4 : 4 ≤ f - 1 ∧ raNeed tl ≤ f - 1 := by
      unfold raNeed at hf
      omega
    obtain ⟨g, rfl⟩ : ∃ g, f = g + 5 := ⟨f - 5, by unfold raNeed at hf; omega⟩
    show read_attrs (g + 5) (tl.length + 1)
      (write_str k ++ write_node_content v ++ write_attrs tl ++ rest) = _
    unfold read_attrs
    simp only [List.append_assoc]
    obtain ⟨cK, hK, hKs⟩ := rt_read_str (g + 2) k
      (write_node_content v ++ (write_attrs tl ++ rest)) hgk
    rw [show (g + 5 : Nat) - 1 = g + 4 from by omega] at *
    rw [show (g + 4 : Nat) = (g + 2) + 2 from by omega, hK]
    simp only
    rw [show (g + 2) + 2 = g + 4 from by omega,
      rt_attr_value g v (write_attrs tl ++ rest) hgv]
    simp only
    rw [ih (g + 4) rest hgtl (by unfold raNeed at hf; omega)]
    simp only [hKs]

/-- The written list-size header reads back exactly, away from the LIST_8
truncation at 256. -/
theorem write_list_size_cons (size : Nat) (h2 : size < 65536) :
    ∃ t body, write_list_size size = t :: body ∧
      (t = LIST_EMPTY ∨ t = LIST_8 ∨ t = LIST_16) ∧
      (size ≠ 256 → ∀ rest, read_list_size t (body ++ rest) = some (size, rest)) := by
  unfold write_list_size
  by_cases h0 : size = 0
  · subst h0
    refine ⟨LIST_EMPTY, [], by rw [if_pos rfl], Or.inl rfl, fun _ rest => ?_⟩
    unfold read_list_size
    rw [if_pos rfl, List.nil_append]
  · by_cases h1 : size ≤ 256
    · refine ⟨LIST_8, [size % 256], by rw [if_neg h0, if_pos h1], Or.inr (Or.inl rfl),
        fun h256 rest => ?_⟩
      unfold read_list_size
      rw [if_neg (by unfold LIST_EMPTY LIST_8; omega), if_pos rfl]
      rw [List.cons_append, List.nil_append, readU8_cons]
      rw [Nat.mod_eq_of_lt (by omega)]
    · refine ⟨LIST_16, [size / 256 % 256, size % 256], by rw [if_neg h0, if_neg h1],
        Or.inr (Or.inr rfl), fun _ rest => ?_⟩
      unfold read_list_size
      rw [if_neg (by unfold LIST_EMPTY LIST_16; omega),
        if_neg (by unfold LIST_8 LIST_16; omega), if_pos rfl]
      simp only [List.cons_append, List.nil_append, Option.some.injEq, Prod.mk.injEq, and_true]
      omega


theorem read_binary_len_none (t : Nat) (s : List Nat)
    (h : ¬(t = BINARY_8 ∨ t = BINARY_20 ∨ t = BINARY_32)) :
    read_binary_len t s = Option.none := by
  unfold read_binary_len
  rw [if_neg (fun hh => h (Or.inl hh)), if_neg (fun hh => h (Or.inr (Or.inl hh))),
    if_neg (fun hh => h (Or.inr (Or.inr hh)))]

/-- On a non-binary first byte the content arm coincides with the ordinary
tagged read. -/
theorem read_content_eq_tagged (f : Nat) (t : Nat) (s : List Nat)
    (h : ¬(t = BINARY_8 ∨ t = BINARY_20 ∨ t = BINARY_32)) :
    read_content (f + 1) (t :: s) = read_tagged (f + 1) (t :: s) := by
  rw [read_content_succ, read_binary_len_none t s h, read_tagged_succ]

theorem read_nodes_succ (f c : Nat) (s : List Nat) :
    read_nodes (f + 1) (c + 1) s =
      match deserialize_stream f s with
      | Option.none => Option.none
      | some (n, s1) =>
        match read_nodes f c s1 with
        | Option.none => Option.none
        | some (l, s2) => some (n :: l, s2) := rfl

theorem read_nodes_zero (f : Nat) (s : List Nat) : read_nodes f 0 s = some ([], s) := by
  cases f <;> rfl

theorem deserialize_stream_succ (f : Nat) (t : Nat) (s : List Nat) :
    deserialize_stream (f + 1) (t :: s) =
      match read_list_size t s with
      | Option.none => Option.none
      | some (list_size, s1) =>
        match read_tagged f s1 with
        | Option.none => Option.none
        | some (descC, s2) =>
          match read_attrs f ((list_size + 65535) % 65536 / 2) s2 with
          | Option.none => Option.none
          | some (attrs, s3) =>
            if list_size % 2 = 1 then some (.mk descC.into_string attrs .none, s3)
            else
              match read_content f s3 with
              | Option.none => Option.none
              | some (c, s4) => some (.mk descC.into_string attrs c, s4) := rfl

theorem content_size_of_ne_none (c : NodeContent) (h : c ≠ .none) :
    (match c with | NodeContent.none => 1 | _ => 2) = 2 := by
  cases c
  · exact absurd rfl h
  all_goals rfl

theorem content_bytes_of_ne_none (c : NodeContent) (h : c ≠ .none) :
    (match c with | NodeContent.none => [] | cc => write_node_content cc) =
      write_node_content c := by
  cases c
  · exact absurd rfl h
  all_goals rfl

theorem attr_count_arith (k a : Nat) (hk : k = 1 ∨ k = 2) (hlt : k + a * 2 < 65536) :
    (k + a * 2 + 65535) % 65536 / 2 = a := by
  rcases hk with rfl | rfl <;> omega

/-- One `deserialize_stream` step on a node with content, given the
serialized shape and a content-read fact for the tail. -/
theorem ds_node_step (g2 : Nat) (desc : List Nat) (attrs : List (List Nat × NodeContent))
    (c : NodeContent) (rest : List Nat)
    (hgd : goodStr desc = true) (hga : goodAttrs attrs = true)
    (h256 : 2 + attrs.length * 2 ≠ 256) (hlt : 2 + attrs.length * 2 < 65536)
    (hra : raNeed attrs ≤ g2 + 2)
    (hser : Node.serialize_stream (.mk desc attrs c) =
      write_list_size ((2 + attrs.length * 2) % 65536) ++ write_str desc ++
        write_attrs attrs ++ write_node_content c)
    (hcontent : read_content (g2 + 2) (write_node_content c ++ rest) = some (c, rest)) :
    deserialize_stream (g2 + 2 + 1) (Node.serialize_stream (.mk desc attrs c) ++ rest) =
      some (.mk desc attrs c, rest) := by
  rw [hser, Nat.mod_eq_of_lt hlt]
  obtain ⟨t, body, hw, htag, hread⟩ := write_list_size_cons _ hlt
  rw [hw]
  simp only [List.cons_append, List.append_assoc]
  rw [deserialize_stream_succ, hread h256 _]
  simp only
  obtain ⟨cD, hD, hDs⟩ := rt_read_str g2 desc
    (write_attrs attrs ++ (write_node_content c ++ rest)) hgd
  rw [hD]
  simp only
  rw [show (2 + attrs.length * 2 + 65535) % 65536 / 2 = attrs.length from by omega]
  rw [rt_attrs attrs (g2 + 2) _ hga hra]
  simp only
  rw [if_neg (by omega : ¬(2 + attrs.length * 2) % 2 = 1)]
  rw [hcontent]
  simp only
  rw [hDs]

/-- One `deserialize_stream` step on a node with `None` content. -/
theorem ds_node_step_none (g2 : Nat) (desc : List Nat)
    (attrs : List (List Nat × NodeContent)) (rest : List Nat)
    (hgd : goodStr desc = true) (hga : goodAttrs attrs = true)
    (hlt : 1 + attrs.length * 2 < 65536)
    (hra : raNeed attrs ≤ g2 + 2) :
    deserialize_stream (g2 + 2 + 1) (Node.serialize_stream (.mk desc attrs .none) ++ rest) =
      some (.mk desc attrs .none, rest) := by
  rw [show Node.serialize_stream (.mk desc attrs .none) =
    write_list_size ((1 + attrs.length * 2) % 65536) ++ write_str desc ++
      write_attrs attrs ++ [] from rfl]
  rw [List.append_nil, Nat.mod_eq_of_lt hlt]
  obtain ⟨t, body, hw, htag, hread⟩ := write_list_size_cons _ hlt
  rw [hw]
  simp only [List.cons_append, List.append_assoc]
  rw [deserialize_stream_succ, hread (by omega) _]
  simp only
  obtain ⟨cD, hD, hDs⟩ := rt_read_str g2 desc (write_attrs attrs ++ rest) hgd
  rw [hD]
  simp only
  rw [show (1 + attrs.length * 2 + 65535) % 65536 / 2 = attrs.length from by omega]
  rw [rt_attrs attrs (g2 + 2) _ hga hra]
  simp only
  rw [if_pos (by omega : (1 + attrs.length * 2) % 2 = 1)]
  rw [hDs]

/-- The main round-trip induction: good contents, node lists and nodes parse
back from their serializations given sufficient fuel. -/
theorem rt_grand : ∀ f : Nat,
    (∀ c rest, goodContent c = true → c ≠ NodeContent.none → rcNeed c ≤ f →
        read_content f (write_node_content c ++ rest) = some (c, rest)) ∧
    (∀ l rest, goodNodes l = true → rnodesNeed l ≤ f →
        read_nodes f l.length (write_nodes l ++ rest) = some (l, rest)) ∧
    (∀ n rest, goodNode n = true → dsNeed n ≤ f →
        deserialize_stream f (Node.serialize_stream n ++ rest) = some (n, rest)) := by
  intro f
  induction f using Nat.strong_induction_on with
  | _ f IH =>
  refine ⟨?_, ?_, ?_⟩
  · intro c rest hg hne hfc
    cases c with
    | none => exact absurd rfl hne
    | str s => simp [goodContent] at hg
    | token t =>
      have ht : t ∈ TOKENS := by simpa [goodContent] using hg
      obtain ⟨i, hw, hi⟩ := write_token_head t ht
      obtain ⟨g, rfl⟩ : ∃ g, f = g + 1 + 1 := ⟨f - 2, by unfold rcNeed at hfc; omega⟩
      have hnb : ¬((i + 3 : Nat) = BINARY_8 ∨ (i + 3 : Nat) = BINARY_20 ∨
          (i + 3 : Nat) = BINARY_32) := by
        unfold BINARY_8 BINARY_20 BINARY_32
        omega
      rw [show write_node_content (.token t) = write_token t from rfl, hw,
        List.cons_append, List.nil_append, read_content_eq_tagged (g + 1) (i + 3) rest hnb]
      have hrt := rt_read_token g t rest ht
      rw [hw, List.cons_append, List.nil_append] at hrt
      exact hrt
    | binary b =>
      have hlen : b.length < 4294967296 := by simpa [goodContent] using hg
      obtain ⟨g, rfl⟩ : ∃ g, f = g + 1 := ⟨f - 1, by unfold rcNeed at hfc; omega⟩
      exact rt_read_content_binary g b rest hlen
    | jid j =>
      have hj : goodJidId j.id = true := by simpa [goodContent] using hg
      obtain ⟨g, rfl⟩ : ∃ g, f = g + 3 + 1 := ⟨f - 4, by unfold rcNeed at hfc; omega⟩
      have hnb : ¬((JID_PAIR : Nat) = BINARY_8 ∨ (JID_PAIR : Nat) = BINARY_20 ∨
          (JID_PAIR : Nat) = BINARY_32) := by
        unfold JID_PAIR BINARY_8 BINARY_20 BINARY_32
        omega
      rw [show write_node_content (.jid j) ++ rest =
        JID_PAIR :: ((write_nibble j.id ++ write_token (jidSuffix j)) ++ rest) from rfl,
        read_content_eq_tagged (g + 3) _ _ hnb]
      exact rt_read_jid g j rest hj
    | nibble s =>
      have hgn : s.length % 2 = 1 ∧ s.length ≤ 253 ∧ s.all isNibbleCode = true := by
        have h2 : goodNibble s = true := by simpa [goodContent] using hg
        simpa [goodNibble, Bool.and_eq_true, decide_eq_true_eq, and_assoc] using h2
      obtain ⟨g, rfl⟩ : ∃ g, f = g + 1 + 1 := ⟨f - 2, by unfold rcNeed at hfc; omega⟩
      have hnb : ¬((NIBBLE_8 : Nat) = BINARY_8 ∨ (NIBBLE_8 : Nat) = BINARY_20 ∨
          (NIBBLE_8 : Nat) = BINARY_32) := by
        unfold NIBBLE_8 BINARY_8 BINARY_20 BINARY_32
        omega
      rw [show write_node_content (.nibble s) ++ rest =
        NIBBLE_8 :: ((s.length % 256 % 2 * 128 + (s.length % 256 + 1) % 256 / 2)
            :: (packNibbles s ++ rest)) from rfl,
        read_content_eq_tagged (g + 1) _ _ hnb,
        show (NIBBLE_8 :: ((s.length % 256 % 2 * 128 + (s.length % 256 + 1) % 256 / 2)
            :: (packNibbles s ++ rest))) = write_nibble s ++ rest from rfl,
        rt_read_nibble g s rest hgn.2.2 hgn.2.1, if_pos hgn.1]
    | list l =>
      have hgl : goodNodes l = true ∧ l.length ≠ 256 ∧ l.length < 65536 := by
        simpa [goodContent, Bool.and_eq_true, decide_eq_true_eq, and_assoc] using hg
      obtain ⟨g, rfl⟩ : ∃ g, f = g + 1 + 1 :=
        ⟨f - 2, by unfold rcNeed at hfc; omega⟩
      have hmod : l.length % 65536 = l.length := Nat.mod_eq_of_lt hgl.2.2
      rw [show write_node_content (.list l) =
        write_list_size (l.length % 65536) ++ write_nodes l from rfl, hmod]
      obtain ⟨t, body, hw, htag, hread⟩ := write_list_size_cons l.length hgl.2.2
      have hnb : ¬(t = BINARY_8 ∨ t = BINARY_20 ∨ t = BINARY_32) := by
        unfold LIST_EMPTY LIST_8 LIST_16 at htag
        unfold BINARY_8 BINARY_20 BINARY_32
        omega
      rw [hw]
      simp only [List.cons_append, List.append_assoc]
      rw [read_content_eq_tagged (g + 1) t _ hnb, read_tagged_succ, rnc_list_arm g t _ htag,
        hread hgl.2.1 (write_nodes l ++ rest)]
      simp only
      rw [(IH g (by omega)).2.1 l rest hgl.1
        (by unfold rcNeed at hfc; omega)]
  · intro l rest hg hf
    cases l with
    | nil =>
      rw [show write_nodes [] = ([] : List Nat) from rfl, List.nil_append, List.length_nil,
        read_nodes_zero]
    | cons n tl =>
      have hgn : goodNode n = true ∧ goodNodes tl = true := by
        simpa [goodNodes, Bool.and_eq_true] using hg
      obtain ⟨g, rfl⟩ : ∃ g, f = g + 1 := ⟨f - 1, by unfold rnodesNeed at hf; omega⟩
      rw [show write_nodes (n :: tl) = Node.serialize_stream n ++ write_nodes tl from rfl,
        List.length_cons, List.append_assoc, read_nodes_succ,
        (IH g (by omega)).2.2 n (write_nodes tl ++ rest) hgn.1
          (by unfold rnodesNeed at hf; omega)]
      simp only
      rw [(IH g (by omega)).2.1 tl rest hgn.2 (by unfold rnodesNeed at hf; omega)]
  · intro n rest hg hf
    obtain ⟨desc, attrs, c⟩ := n
    obtain ⟨g2, rfl⟩ : ∃ g2, f = g2 + 2 + 1 := ⟨f - 3, by unfold dsNeed at hf; omega⟩
    have hra : raNeed attrs ≤ g2 + 2 := by unfold dsNeed at hf; omega
    have hrc : rcNeed c ≤ g2 + 2 := by unfold dsNeed at hf; omega
    cases c
    case none =>
      have hx : goodStr desc = true ∧ goodAttrs attrs = true ∧
          1 + attrs.length * 2 < 65536 := by
        simp only [goodNode, Bool.and_eq_true, decide_eq_true_eq] at hg
        exact ⟨hg.1.1.1.1, hg.1.1.1.2, hg.2⟩
      exact ds_node_step_none g2 desc attrs rest hx.1 hx.2.1 hx.2.2 hra
    case str s => simp [goodNode, goodContent] at hg
    all_goals (
      simp only [goodNode, Bool.and_eq_true, decide_eq_true_eq] at hg
      obtain ⟨⟨⟨⟨hgd, hga⟩, hgc⟩, h256⟩, hlt⟩ := hg
      exact ds_node_step g2 desc attrs _ rest hgd hga h256 hlt hra rfl
        ((IH (g2 + 2) (by omega)).1 _ rest hgc (by intro hh; exact NodeContent.noConfusion hh)
          hrc))

theorem write_list_size_pos (size : Nat) : 1 ≤ (write_list_size size).length := by
  unfold write_list_size
  split
  · simp
  · split <;> simp

theorem write_node_binary_len (b : List Nat) : 2 ≤ (write_node_binary b).length := by
  unfold write_node_binary
  split
  · simp
  · split <;> simp

theorem write_str_pos (s : List Nat) : 1 ≤ (write_str s).length := by
  unfold write_str
  cases h : TOKENS.findIdx? (fun r => r == s)
  · have := write_node_binary_len s
    simp only
    omega
  · simp

theorem wnc_pos : ∀ c : NodeContent, 1 ≤ (write_node_content c).length := by
  intro c
  cases c with
  | none => simp [write_node_content]
  | list l =>
    have := write_list_size_pos (l.length % 65536)
    simp only [write_node_content, List.length_append]
    omega
  | str s => exact write_str_pos s
  | binary b =>
    have := write_node_binary_len b
    simp only [write_node_content]
    omega
  | jid j => simp [write_node_content]
  | token t => simp [write_node_content, write_token]
  | nibble s => simp [write_node_content, write_nibble]

mutual
/-- The parse fuel bound is dominated by four times the serialized length. -/
theorem dsNeed_le : ∀ n : Node, dsNeed n + 1 ≤ 4 * (Node.serialize_stream n).length
  | .mk desc attrs c => by
    have h1 := raNeed_le attrs
    have h4 := write_str_pos desc
    cases c with
    | none =>
      have h3 := write_list_size_pos ((1 + attrs.length * 2) % 65536)
      simp only [Node.serialize_stream, dsNeed, rcNeed, List.length_append, List.length_nil]
      omega
    | list l =>
      have h3 := write_list_size_pos ((2 + attrs.length * 2) % 65536)
      have h2 := rnodesNeed_le l
      have h5 := write_list_size_pos (l.length % 65536)
      simp only [Node.serialize_stream, dsNeed, rcNeed, write_node_content, List.length_append]
      omega
    | str s =>
      have h3 := write_list_size_pos ((2 + attrs.length * 2) % 65536)
      have h5 := write_str_pos s
      simp only [Node.serialize_stream, dsNeed, rcNeed, write_node_content, List.length_append]
      omega
    | binary b =>
      have h3 := write_list_size_pos ((2 + attrs.length * 2) % 65536)
      have h5 := write_node_binary_len b
      simp only [Node.serialize_stream, dsNeed, rcNeed, write_node_content, List.length_append]
      omega
    | jid j =>
      have h3 := write_list_size_pos ((2 + attrs.length * 2) % 65536)
      simp only [Node.serialize_stream, dsNeed, rcNeed, write_node_content, List.length_append,
        List.length_cons]
      omega
    | token t =>
      have h3 := write_list_size_pos ((2 + attrs.length * 2) % 65536)
      have h5 : (write_token t).length = 1 := rfl
      simp only [Node.serialize_stream, dsNeed, rcNeed, write_node_content, List.length_append]
      omega
    | nibble s =>
      have h3 := write_list_size_pos ((2 + attrs.length * 2) % 65536)
      have h5 : 2 ≤ (write_nibble s).length := by simp [write_nibble]
      simp only [Node.serialize_stream, dsNeed, rcNeed, write_node_content, List.length_append]
      omega
theorem rcNeed_le : ∀ c : NodeContent, rcNeed c ≤ 4 * (write_node_content c).length
  | .none => by simp [rcNeed, write_node_content]
  | .list l => by
    have h1 := rnodesNeed_le l
    have h2 := write_list_size_pos (l.length % 65536)
    simp only [rcNeed, write_node_content, List.length_append]
    omega
  | .str s => by
    have := write_str_pos s
    simp only [rcNeed, write_node_content]
    omega
  | .binary b => by
    have := write_node_binary_len b
    simp only [rcNeed, write_node_content]
    omega
  | .jid j => by simp [rcNeed, write_node_content]
  | .token t => by simp [rcNeed, write_node_content, write_token]
  | .nibble s => by simp [rcNeed, write_node_content, write_nibble]
theorem rnodesNeed_le : ∀ l : List Node, rnodesNeed l ≤ 4 * (write_nodes l).length
  | [] => by simp [rnodesNeed, write_nodes]
  | n :: tl => by
    have h1 := dsNeed_le n
    have h2 := rnodesNeed_le tl
    simp only [rnodesNeed, write_nodes, List.length_append]
    omega
theorem raNeed_le : ∀ a : List (List Nat × NodeContent), raNeed a ≤ 4 * (write_attrs a).length
  | [] => by simp [raNeed, write_attrs]
  | (k, v) :: tl => by
    have h1 := raNeed_le tl
    have h2 := write_str_pos k
    have h3 := wnc_pos v
    simp only [raNeed, write_attrs, List.length_append]
    omega
end

/-- The repository test node (`node_wire.rs` `test_ser_de`), in the good
class. -/
def exampleGoodNode : Node :=
  .mk (strBytes "action") []
    (.list [.mk (strBytes "chat")
      [(strBytes "jid", .jid ⟨strBytes "12123123-493244232342", true⟩),
       (strBytes "type", .token (strBytes "delete"))] .none])

/-- A node whose content is a `String`: the serializer writes the bytes with
a binary header and the content arm of the deserializer reads them back as
`Binary`, so the unrestricted round trip fails. -/
def strContentNode : Node := .mk (strBytes "a") [] (.str (strBytes "hi"))

def contentIsStr (n : Node) : Bool :=
  match n.content with
  | .str _ => true
  | _ => false

/-- C1 (amended): the node codec round-trips on every good node — tokens,
non-token strings, non-UTF-8 binaries, jids and odd nibble strings as
attribute values; none, lists (length not 256, below 2^16), binaries,
tokens, jids and odd nibble strings as content; any valid-UTF-8 description
and attribute names; header list size not 256 and below 2^16. -/
theorem node_codec_roundtrip_good (n : Node) (h : goodNode n = true) :
    Node.deserialize (Node.serialize n) = some n := by
  have hds := (rt_grand (4 * (Node.serialize_stream n).length + 4)).2.2 n [] h
    (by have := dsNeed_le n; omega)
  rw [List.append_nil] at hds
  unfold Node.deserialize Node.serialize
  rw [hds]
  rfl

theorem node_codec_roundtrip_good_witness :
    goodNode exampleGoodNode = true ∧
      Node.deserialize (Node.serialize exampleGoodNode) = some exampleGoodNode :=
  ⟨by decide, node_codec_roundtrip_good exampleGoodNode (by decide)⟩

/-- C1 (counterexample): a node with `String` content does not round-trip —
the bytes come back as `Binary`. -/
theorem node_codec_roundtrip_counterexample :
    Node.deserialize (Node.serialize strContentNode) ≠ some strContentNode := by
  intro h
  have h1 : (Node.deserialize (Node.serialize strContentNode)).map contentIsStr =
      some true := by
    rw [h]
    rfl
  have h2 : (Node.deserialize (Node.serialize strContentNode)).map contentIsStr =
      some false := by decide
  rw [h1] at h2
  exact Bool.noConfusion (Option.some.inj h2)

def boundary256Node : Node :=
  .mk (strBytes "a") [] (.list (List.replicate 256 (.mk (strBytes "a") [] .none)))

def boundary257Node : Node :=
  .mk (strBytes "a") [] (.list (List.replicate 257 (.mk (strBytes "a") [] .none)))

/-- C8: the encoder takes the LIST_8 branch for size 256 (Rust `1...256` is
inclusive) and `256 as u8` writes length byte 0, so a 256-child list decodes
back to 0 children, while a 257-child list uses LIST_16 and decodes back to
257 children. -/
theorem list_size_boundary_bug :
    write_list_size 256 = [LIST_8, 0] ∧
    (Node.deserialize (Node.serialize boundary256Node)).map numChildren = some 0 ∧
    (Node.deserialize (Node.serialize boundary257Node)).map numChildren = some 257 :=
  ⟨by decide, by decide, by decide⟩

/-! ## Message identifiers (`message.rs`) -/

/-- Hex digits of `n`, most significant first, no leading zeros; empty for 0.
Structural on the fuel argument, called with fuel `n` (enough since each
step divides by 16). -/
def hexDigitsAux : Nat → Nat → List Nat
  | 0, _ => []
  | fuel + 1, n =>
    if n = 0 then []
    else hexDigitsAux fuel (n / 16) ++ [hexDigitUpper (n % 16)]

/-- Rust `format!("\x7b:X\x7d", b)`: minimal-width uppercase hex, `0` as "0". -/
def formatHexUpper (b : Nat) : List Nat :=
  if b = 0 then [48] else hexDigitsAux b b

/-- `message.rs` `MessageId::generate`, as a function of the 10 random bytes:
the id bytes are `[0x3E, 0xB0] ++ random`, and the serialized form maps
`format!("\x7b:X\x7d", b)` over them and concatenates. -/
def MessageId.generate (random : List Nat) : List Nat :=
  ((62 :: 176 :: random).map formatHexUpper).flatten

/-- Digits that uppercase hex can produce: `0`-`9` or `A`-`F`. -/
def isHexUpperDigit (c : Nat) : Bool :=
  (48 ≤ c && c ≤ 57) || (65 ≤ c && c ≤ 70)

theorem formatHexUpper_byte_facts :
    ∀ b < 256, (1 ≤ (formatHexUpper b).length ∧ (formatHexUpper b).length ≤ 2) ∧
      ∀ c ∈ formatHexUpper b, isHexUpperDigit c = true := by decide

theorem hex_flatten_len (r : List Nat) (hb : ∀ b ∈ r, b < 256) :
    r.length ≤ ((r.map formatHexUpper).flatten).length ∧
      ((r.map formatHexUpper).flatten).length ≤ 2 * r.length := by
  induction r with
  | nil => simp
  | cons b tl ih =>
    have hbb := (formatHexUpper_byte_facts b (hb b (by simp))).1
    have htl := ih (fun x hx => hb x (by simp [hx]))
    simp only [List.map_cons, List.flatten_cons, List.length_append, List.length_cons]
    omega

theorem formatHexUpper_two_digits :
    ∀ b < 256, ((formatHexUpper b).length = 2 ↔ 16 ≤ b) := by decide

theorem hex_flatten_len_eq (r : List Nat) (hb : ∀ b ∈ r, b < 256) :
    ((r.map formatHexUpper).flatten.length = 2 * r.length ↔ ∀ b ∈ r, 16 ≤ b) := by
  induction r with
  | nil => simp
  | cons b tl ih =>
    have h1 := (formatHexUpper_byte_facts b (hb b (by simp))).1
    have h2 := formatHexUpper_two_digits b (hb b (by simp))
    have htl := hex_flatten_len tl (fun x hx => hb x (by simp [hx]))
    have ihh := ih (fun x hx => hb x (by simp [hx]))
    simp only [List.map_cons, List.flatten_cons, List.length_append, List.length_cons,
      List.forall_mem_cons]
    constructor
    · intro he
      have hlen2 : (formatHexUpper b).length = 2 := by omega
      have h20 : (tl.map formatHexUpper).flatten.length = 2 * tl.length := by omega
      exact ⟨h2.mp hlen2, ihh.mp h20⟩
    · rintro ⟨hble, hall⟩
      have e1 := ihh.mpr hall
      have e2 := h2.mpr hble
      omega

theorem hex_flatten_digits (r : List Nat) (hb : ∀ b ∈ r, b < 256) :
    ∀ c ∈ (r.map formatHexUpper).flatten, isHexUpperDigit c = true := by
  intro c hc
  rw [List.mem_flatten] at hc
  obtain ⟨l, hl, hcl⟩ := hc
  rw [List.mem_map] at hl
  obtain ⟨b, hbr, rfl⟩ := hl
  exact (formatHexUpper_byte_facts b (hb b hbr)).2 c hcl

/-- C9 (counterexample): with the 10 random bytes all zero, the serialized
id is "3EB00000000000" — 14 characters, not 24: `format!("\x7b:X\x7d", b)`
does not zero-pad each byte to two digits. -/
theorem message_id_format_counterexample :
    MessageId.generate (List.replicate 10 0) = strBytes "3EB00000000000" ∧
      (MessageId.generate (List.replicate 10 0)).length ≠ 24 := by
  constructor <;> decide

/-- C9 (amended): for every outcome of the 10 random bytes, the serialized
id is "3EB0" followed by the unpadded uppercase hex of each random byte
concatenated: it always starts with "3EB0", every character is an uppercase
hex digit, its length is between 14 and 24, and it is exactly 24 characters
if and only if every random byte is ≥ 16. -/
theorem message_id_format_amended (r : List Nat) (hlen : r.length = 10)
    (hb : ∀ b ∈ r, b < 256) :
    MessageId.generate r = strBytes "3EB0" ++ (r.map formatHexUpper).flatten ∧
      (MessageId.generate r).take 4 = strBytes "3EB0" ∧
      14 ≤ (MessageId.generate r).length ∧
      (MessageId.generate r).length ≤ 24 ∧
      (∀ c ∈ MessageId.generate r, isHexUpperDigit c = true) ∧
      ((MessageId.generate r).length = 24 ↔ ∀ b ∈ r, 16 ≤ b) := by
  have hshape : MessageId.generate r = strBytes "3EB0" ++ (r.map formatHexUpper).flatten := by
    simp only [MessageId.generate, List.map_cons, List.flatten_cons]
    rfl
  have hflat := hex_flatten_len r hb
  refine ⟨hshape, ?_, ?_, ?_, ?_, ?_⟩
  · rw [hshape]
    rw [show (4 : Nat) = (strBytes "3EB0").length from rfl, List.take_left]
  · rw [hshape]
    simp only [List.length_append]
    have : (strBytes "3EB0").length = 4 := rfl
    omega
  · rw [hshape]
    simp only [List.length_append]
    have : (strBytes "3EB0").length = 4 := rfl
    omega
  · intro c hc
    rw [hshape, List.mem_append] at hc
    rcases hc with hc | hc
    · revert hc
      revert c
      decide
    · exact hex_flatten_digits r hb c hc
  · have hiff := hex_flatten_len_eq r hb
    rw [hlen] at hiff
    rw [hshape]
    simp only [List.length_append]
    have h4 : (strBytes "3EB0").length = 4 := rfl
    constructor
    · intro he
      exact hiff.mp (by omega)
    · intro hall
      have := hiff.mpr hall
      omega

theorem message_id_format_amended_witness :
    (List.replicate 10 (255 : Nat)).length = 10 ∧
      (∀ b ∈ List.replicate 10 (255 : Nat), b < 256) ∧
      (MessageId.generate (List.replicate 10 255) =
          strBytes "3EB0" ++ ((List.replicate 10 (255 : Nat)).map formatHexUpper).flatten ∧
        (MessageId.generate (List.replicate 10 255)).take 4 = strBytes "3EB0" ∧
        14 ≤ (MessageId.generate (List.replicate 10 255)).length ∧
        (MessageId.generate (List.replicate 10 255)).length ≤ 24 ∧
        (∀ c ∈ MessageId.generate (List.replicate 10 255), isHexUpperDigit c = true) ∧
        ((MessageId.generate (List.replicate 10 255)).length = 24 ↔
          ∀ b ∈ List.replicate 10 (255 : Nat), 16 ≤ b)) :=
  ⟨by decide, by decide,
    message_id_format_amended (List.replicate 10 255) (by decide) (by decide)⟩

/-! ## Frame crypto (`crypto.rs`)

The primitive ciphers come from the external `ring` / `rust-crypto` crates,
so they are parameters here; `crypto.rs`'s own composition of them is
translated literally. -/

structure CryptoPrims where
  /-- HMAC-SHA256: key, data → 32-byte tag. -/
  hmacSha256 : List Nat → List Nat → List Nat
  /-- AES-256-CBC + PKCS padding encrypt: key, iv, plaintext → ciphertext. -/
  aesEnc : List Nat → List Nat → List Nat → List Nat
  /-- AES-256-CBC + PKCS padding decrypt: key, iv, ciphertext → plaintext. -/
  aesDec : List Nat → List Nat → List Nat → List Nat
  /-- X25519 agreement: private scalar, peer public key → shared secret. -/
  agree : List Nat → List Nat → List Nat
  /-- HKDF-SHA256 with zero salt and empty info, 80-byte output. -/
  hkdf80 : List Nat → List Nat

/-- `crypto.rs` `sign_and_encrypt_message`, with the random IV made an
argument: output is `hmac(mac, iv ++ ct) ++ iv ++ ct`. -/
def sign_and_encrypt_message (P : CryptoPrims) (iv enc mac message : List Nat) :
    List Nat :=
  let ct := P.aesEnc enc iv message
  P.hmacSha256 mac (iv ++ ct) ++ (iv ++ ct)

/-- `crypto.rs` `verify_and_decrypt_message`: check
`hmac(mac, m[32..]) == m[..32]`, then AES-decrypt `m[48..]` with IV
`m[32..48]`. -/
def verify_and_decrypt_message (P : CryptoPrims) (enc mac m : List Nat) :
    Option (List Nat) :=
  if P.hmacSha256 mac (m.drop 32) == m.take 32 then
    some (P.aesDec enc ((m.drop 32).take 16) (m.drop 48))
  else
    none

/-- `crypto.rs` `calculate_secret_keys`: agree, expand to 80 bytes, verify
`hmac(okm[32..64], secret[..32] ++ secret[64..]) == secret[32..64]`, then
AES-decrypt `secret[64..144]` with key `okm[..32]` and IV `okm[64..]` into a
64-byte buffer; `enc = buffer[..32]`, `mac = buffer[32..]`. -/
def calculate_secret_keys (P : CryptoPrims) (secret private_key : List Nat) :
    Option (List Nat × List Nat) :=
  let secret_key := P.agree private_key (secret.take 32)
  let okm := P.hkdf80 secret_key
  if P.hmacSha256 ((okm.drop 32).take 32) (secret.take 32 ++ secret.drop 64) ==
      (secret.drop 32).take 32 then
    let buffer := (P.aesDec (okm.take 32) (okm.drop 64) ((secret.drop 64).take 80)
        ++ List.replicate 64 0).take 64
    some (buffer.take 32, buffer.drop 32)
  else
    none

/-- C2: for every 32-byte enc and mac key, every 16-byte IV and every
plaintext, decrypt-verify inverts sign-encrypt, provided the AES primitive
round-trips on that key/IV/plaintext and HMAC tags are 32 bytes. -/
theorem frame_crypto_roundtrip (P : CryptoPrims) (enc mac iv msg : List Nat)
    (henc : enc.length = 32) (hmackey : mac.length = 32) (hiv : iv.length = 16)
    (hhmac : ∀ key data, (P.hmacSha256 key data).length = 32)
    (hround : P.aesDec enc iv (P.aesEnc enc iv msg) = msg) :
    verify_and_decrypt_message P enc mac (sign_and_encrypt_message P iv enc mac msg) =
      some msg := by
  unfold verify_and_decrypt_message sign_and_encrypt_message
  have htag := hhmac mac (iv ++ P.aesEnc enc iv msg)
  rw [show (32 : Nat) = (P.hmacSha256 mac (iv ++ P.aesEnc enc iv msg)).length from
      htag.symm, List.drop_left, List.take_left, beq_self_eq_true, if_pos rfl,
    show iv ++ P.aesEnc enc iv msg = iv ++ P.aesEnc enc iv msg from rfl]
  rw [show (16 : Nat) = iv.length from hiv.symm, List.take_left]
  have hd48 : (P.hmacSha256 mac (iv ++ P.aesEnc enc iv msg) ++
      (iv ++ P.aesEnc enc iv msg)).drop 48 = P.aesEnc enc iv msg := by
    rw [← List.append_assoc,
      show (48 : Nat) = (P.hmacSha256 mac (iv ++ P.aesEnc enc iv msg) ++ iv).length by
        simp [htag, hiv], List.drop_left]
  rw [hd48, hround]

def idPrims : CryptoPrims :=
  { hmacSha256 := fun _ _ => List.replicate 32 0
    aesEnc := fun _ _ m => m
    aesDec := fun _ _ c => c
    agree := fun _ _ => []
    hkdf80 := fun _ => List.replicate 80 0 }

theorem frame_crypto_roundtrip_witness :
    (List.replicate 32 (1 : Nat)).length = 32 ∧
      (List.replicate 32 (2 : Nat)).length = 32 ∧
      (List.replicate 16 (3 : Nat)).length = 16 ∧
      (∀ key data, (idPrims.hmacSha256 key data).length = 32) ∧
      idPrims.aesDec (List.replicate 32 1) (List.replicate 16 3)
        (idPrims.aesEnc (List.replicate 32 1) (List.replicate 16 3) [7, 8, 9]) = [7, 8, 9] ∧
      verify_and_decrypt_message idPrims (List.replicate 32 1) (List.replicate 32 2)
        (sign_and_encrypt_message idPrims (List.replicate 16 3) (List.replicate 32 1)
          (List.replicate 32 2) [7, 8, 9]) = some [7, 8, 9] :=
  ⟨by decide, by decide, by decide, fun _ _ => rfl, rfl,
    frame_crypto_roundtrip idPrims (List.replicate 32 1) (List.replicate 32 2)
      (List.replicate 16 3) [7, 8, 9] (by decide) (by decide) (by decide)
      (fun _ _ => rfl) rfl⟩

/-! ## Connection state machine (`connection.rs`, `timeout.rs`)

Callbacks are identified by `Nat` ids; JSON bodies and app-message
serializations are kept abstract (they live in `json_protocol.rs` /
`node_protocol.rs`); effects on the websocket sender and the handler are
collected as a `WsAction` list in source order. -/

structure PersistentSession where
  client_token : List Nat
  server_token : List Nat
  client_id : List Nat
  enc : List Nat
  mac : List Nat
deriving DecidableEq

inductive State where
  | uninitialized
  | connected
  | disconnecting
  | reconnecting
deriving DecidableEq

inductive JsonBody where
  | challengeResponse (server_token client_id signature : List Nat)
deriving DecidableEq

inductive WsFramePayload where
  | json (body : JsonBody)
  | binaryEphemeral (metric : Nat) (bytes : List Nat)
deriving DecidableEq

inductive WsAction where
  | send (tag : List Nat) (payload : WsFramePayload)
  | sendText (text : List Nat)
  | close (normal : Bool)
  | timeoutSchedule (delay token : Nat)
  | timeoutCancel (token : Nat)
  | stateChanged (s : State)
  | persistentSessionChanged (ps : PersistentSession)
  | userJidChanged (j : Jid)
  | disconnectCb (replaced : Bool)
  | invokeCallback (cb : Nat)
deriving DecidableEq

/-- `timeout.rs` windows (milliseconds). -/
structure TimeoutWindow where
  min : Nat
  max : Nat
deriving DecidableEq

def RESPONSE_TIMEOUT : TimeoutWindow := ⟨3000, 5500⟩

def PING_TIMEOUT : TimeoutWindow := ⟨12000, 16000⟩

inductive TimeoutState where
  | deathline
  | normal
deriving DecidableEq

/-- `timeout.rs` `TimeoutManager`; the window is absolute, the `ws` timeout
handle is a token id. -/
structure TimeoutManager where
  windowMin : Nat
  windowMax : Nat
  state : TimeoutState
  timeout : Option Nat
  token : Nat
deriving DecidableEq

def TimeoutManager.new (now : Nat) (window : TimeoutWindow) (state : TimeoutState) :
    TimeoutManager × List WsAction :=
  (⟨now + window.min, now + window.max, state, none, 2⟩,
   [.timeoutSchedule window.max 2])

/-- `TimeoutManager::arm`: the state is always replaced; the timeout itself
is rescheduled only when the pending absolute window is incompatible with
the new one. -/
def TimeoutManager.arm (tm : TimeoutManager) (now : Nat) (new_window : TimeoutWindow)
    (new_state : TimeoutState) : TimeoutManager × List WsAction :=
  if tm.windowMax < now + new_window.min || tm.windowMax > now + new_window.max then
    (⟨now + new_window.min, now + new_window.max, new_state, none, tm.token + 1⟩,
     (match tm.timeout with
      | some t => [WsAction.timeoutCancel t]
      | none => []) ++ [WsAction.timeoutSchedule new_window.max (tm.token + 1)])
  else
    ({ tm with state := new_state }, [])

def TimeoutManager.disarm (tm : TimeoutManager) : TimeoutManager :=
  { tm with timeout := none }

def TimeoutManager.on_timeout (tm : TimeoutManager) (token : Nat) :
    TimeoutManager × Option TimeoutState :=
  if token = tm.token then ({ tm with timeout := none }, some tm.state)
  else (tm, none)

/-- `connection.rs` `SessionState`; the X25519 private key is its byte
representation. -/
inductive SessionState where
  | pendingNew (private_key : Option (List Nat)) (public_key client_id : List Nat)
  | pendingPersistent (persistent_session : PersistentSession)
  | established (persistent_session : PersistentSession)
  | teardown
deriving DecidableEq

inductive WebsocketState where
  | disconnected
  | connected (tm : TimeoutManager)
deriving DecidableEq

/-- `connection.rs` `WhatsappWebConnectionInner`: the pending-request map is
an association list tag ↦ callback id. -/
structure ConnInner where
  user_jid : Option Jid
  requests : List (List Nat × Nat)
  messages_tag_counter : Nat
  session_state : SessionState
  websocket_state : WebsocketState
  epoch : Nat
deriving DecidableEq

def mapInsert (m : List (List Nat × Nat)) (k : List Nat) (v : Nat) :
    List (List Nat × Nat) :=
  (k, v) :: m.filter (fun p => !(p.1 == k))

def mapLookup (m : List (List Nat × Nat)) (k : List Nat) : Option Nat :=
  (m.find? (fun p => p.1 == k)).map Prod.snd

def mapErase (m : List (List Nat × Nat)) (k : List Nat) : List (List Nat × Nat) :=
  m.filter (fun p => !(p.1 == k))

/-- Decimal digits of `n` (Rust `u32::to_string`), fuel-structural. -/
def natToDecimalAux : Nat → Nat → List Nat
  | 0, _ => []
  | fuel + 1, n => if n < 10 then [48 + n] else natToDecimalAux fuel (n / 10) ++ [48 + n % 10]

def natToDecimal (n : Nat) : List Nat := natToDecimalAux (n + 1) n

def METRIC_READ : Nat := 11

def METRIC_RECEIVED : Nat := 13

/-- `alloc_message_tag`: the decimal counter value, post-incrementing. -/
def ConnInner.alloc_message_tag (c : ConnInner) : List Nat × ConnInner :=
  (natToDecimal c.messages_tag_counter,
   { c with messages_tag_counter := c.messages_tag_counter + 1 })

/-- `ws_send_message`: only when the websocket is connected, emit the frame
and register the callback under the tag. -/
def ConnInner.ws_send_message (c : ConnInner) (tag : List Nat)
    (payload : WsFramePayload) (cb : Nat) : ConnInner × List WsAction :=
  match c.websocket_state with
  | .connected _ =>
    ({ c with requests := mapInsert c.requests tag cb }, [.send tag payload])
  | .disconnected => (c, [])

/-- `send_binary_message`: encrypt-and-send only in `Established`; otherwise
return before any tag allocation or websocket traffic. -/
def ConnInner.send_binary_message (P : CryptoPrims) (iv : List Nat) (c : ConnInner)
    (tag : Option (List Nat)) (metric : Nat) (message : List Nat) (cb : Nat) :
    ConnInner × List WsAction :=
  match c.session_state with
  | .established ps =>
    let encrypted := sign_and_encrypt_message P iv ps.enc ps.mac message
    match tag with
    | some t => c.ws_send_message t (.binaryEphemeral metric encrypted) cb
    | none =>
      let (t, c1) := c.alloc_message_tag
      c1.ws_send_message t (.binaryEphemeral metric encrypted) cb
  | _ => (c, [])

/-- `send_app_message`: increment the epoch, then send the app message
serialized at the new epoch (`appMsg` stands for
`app_message.serialize(epoch)` followed by `Node::serialize`). -/
def ConnInner.send_app_message (P : CryptoPrims) (iv : List Nat) (c : ConnInner)
    (tag : Option (List Nat)) (metric : Nat) (appMsg : Nat → List Nat) (cb : Nat) :
    ConnInner × List WsAction :=
  ConnInner.send_binary_message P iv { c with epoch := c.epoch + 1 } tag metric
    (appMsg (c.epoch + 1)) cb

/-- `WhatsappWebConnection::send_message_played`: while still holding the
`MutexGuard` on the inner state it increments the epoch, then calls
`WhatsappWebConnection::send_app_message`, which re-locks the same
non-reentrant `std::sync::Mutex` — that nested call never returns, so only
the first increment lands on the shared state and no played event is ever
sent. The result is the inner state at the point of divergence. -/
def send_message_played (c : ConnInner) : ConnInner :=
  { c with epoch := c.epoch + 1 }

/-- `WhatsappWebConnection::send_message_read`. -/
def send_message_read (P : CryptoPrims) (iv : List Nat) (c : ConnInner)
    (appMsg : Nat → List Nat) (cb : Nat) : ConnInner × List WsAction :=
  ConnInner.send_app_message P iv c none METRIC_READ appMsg cb

/-- `handle_server_conn`. In `PendingNew` the private key is taken before
`calculate_secret_keys` runs (so it is gone even on failure); in
`PendingPersistent` the stored keys are reused with no check; any other
state bails. A missing secret or an already-taken private key is the
source's error/panic path, modelled as `none` with the state as left. -/
def ConnInner.handle_server_conn (P : CryptoPrims) (c : ConnInner) (user_jid : Jid)
    (client_token server_token : List Nat) (secret : Option (List Nat)) :
    ConnInner × Option (PersistentSession × Jid) :=
  match c.session_state with
  | .pendingNew private_key public_key client_id =>
    match secret with
    | none => (c, none)
    | some s =>
      match private_key with
      | none => (c, none)
      | some pk =>
        let c1 := { c with session_state := .pendingNew none public_key client_id }
        match calculate_secret_keys P s pk with
        | none => (c1, none)
        | some (enc, mac) =>
          let ps : PersistentSession := ⟨client_token, server_token, client_id, enc, mac⟩
          ({ c1 with user_jid := some user_jid, session_state := .established ps },
           some (ps, user_jid))
  | .pendingPersistent ps =>
    let nps : PersistentSession := ⟨client_token, server_token, ps.client_id, ps.enc, ps.mac⟩
    ({ c with user_jid := some user_jid, session_state := .established nps },
     some (nps, user_jid))
  | _ => (c, none)

/-- `WhatsappWebConnectionInner::on_timeout`: ask the manager whether the
token is current; `Normal` sends the `"?,,"` ping and re-arms as
`Deathline`; `Deathline` closes abnormally. -/
def ConnInner.on_timeout (c : ConnInner) (now : Nat) (event : Nat) :
    ConnInner × List WsAction :=
  match c.websocket_state with
  | .connected tm =>
    match TimeoutManager.on_timeout tm event with
    | (tm1, some .normal) =>
      let (tm2, acts) := TimeoutManager.arm tm1 now RESPONSE_TIMEOUT .deathline
      ({ c with websocket_state := .connected tm2 },
       .sendText (strBytes "?,,") :: acts)
    | (tm1, some .deathline) =>
      ({ c with websocket_state := .connected tm1 }, [.close false])
    | (tm1, none) => ({ c with websocket_state := .connected tm1 }, [])
  | .disconnected => (c, [])

/-- `handle_server_challenge`: only in `PendingPersistent`, sign the
challenge with the stored mac key and send the response as a JSON message
(via `send_json_message`, which allocates a tag and registers the empty
callback). -/
def ConnInner.handle_server_challenge (P : CryptoPrims) (c : ConnInner)
    (challenge : List Nat) (cb : Nat) : ConnInner × List WsAction :=
  match c.session_state with
  | .pendingPersistent ps =>
    let signature := P.hmacSha256 ps.mac challenge
    let (tag, c1) := c.alloc_message_tag
    c1.ws_send_message tag
      (.json (.challengeResponse ps.server_token ps.client_id signature)) cb
  | _ => (c, [])

def ConnInner.handle_server_disconnect (c : ConnInner) : ConnInner :=
  { c with session_state := .teardown }

/-- Server-to-client JSON messages relevant to the state machine
(`json_protocol.rs` `ServerMessage`, data-only arms collapsed to `other`). -/
inductive ServerMsg where
  | connectionAck (user_jid : Jid) (client_token server_token : List Nat)
      (secret : Option (List Nat))
  | challengeRequest (challenge : List Nat)
  | disconnect (replaced : Bool)
  | other
deriving DecidableEq

structure InboundJson where
  tag : List Nat
  payload : ServerMsg
deriving DecidableEq

/-- `WhatsappWebConnection::ws_on_message` on a JSON frame: if connected,
first re-arm the keep-alive timer as `Normal` (else return); a tag match
consumes the pending request; otherwise dispatch the server message. -/
def ws_on_message (P : CryptoPrims) (c : ConnInner) (now : Nat) (msg : InboundJson) :
    ConnInner × List WsAction :=
  match c.websocket_state with
  | .disconnected => (c, [])
  | .connected tm =>
    let (tm1, armActs) := TimeoutManager.arm tm now PING_TIMEOUT .normal
    let c1 := { c with websocket_state := .connected tm1 }
    match mapLookup c1.requests msg.tag with
    | some cb =>
      ({ c1 with requests := mapErase c1.requests msg.tag },
       armActs ++ [.invokeCallback cb])
    | none =>
      match msg.payload with
      | .connectionAck uj ct st secret =>
        match ConnInner.handle_server_conn P c1 uj ct st secret with
        | (c2, some (ps, uj2)) =>
          (c2, armActs ++ [.stateChanged .connected, .persistentSessionChanged ps,
            .userJidChanged uj2])
        | (c2, none) => (c2, armActs)
      | .challengeRequest ch =>
        let (c2, acts) := ConnInner.handle_server_challenge P c1 ch 0
        (c2, armActs ++ acts)
      | .disconnect replaced =>
        (ConnInner.handle_server_disconnect c1,
         armActs ++ [.stateChanged .disconnecting, .disconnectCb replaced])
      | .other => (c1, armActs)

/-- `WhatsappWebConnection::ws_disconnect`: report `Disconnecting`, set
`Teardown`, close normally and disarm; the pending-request map is not
touched. -/
def ws_disconnect (c : ConnInner) : ConnInner × List WsAction :=
  let c1 := { c with session_state := SessionState.teardown }
  match c1.websocket_state with
  | .connected tm =>
    ({ c1 with websocket_state := .connected tm.disarm },
     [.stateChanged .disconnecting, .close true])
  | .disconnected => (c1, [.stateChanged .disconnecting])

/-- `WhatsappWebConnection::ws_on_disconnected`: drop the socket; an
`Established` session falls back to `PendingPersistent`. -/
def ws_on_disconnected (c : ConnInner) : ConnInner × List WsAction :=
  let c1 := { c with websocket_state := WebsocketState.disconnected }
  match c1.session_state with
  | .established ps =>
    ({ c1 with session_state := .pendingPersistent ps },
     [.stateChanged .reconnecting])
  | _ => (c1, [])

/-- `WhatsappWebConnection::new`, inner state. -/
def new_inner (private_key public_key client_id : List Nat) : ConnInner :=
  { user_jid := none, requests := [], messages_tag_counter := 0,
    session_state := .pendingNew (some private_key) public_key client_id,
    websocket_state := .disconnected, epoch := 0 }

/-- `WhatsappWebConnection::with_persistent_session`, inner state. -/
def with_persistent_session_inner (ps : PersistentSession) : ConnInner :=
  { user_jid := none, requests := [], messages_tag_counter := 0,
    session_state := .pendingPersistent ps,
    websocket_state := .disconnected, epoch := 0 }

def SessionState.isEstablished : SessionState → Bool
  | .established _ => true
  | _ => false

def SessionState.isPendingPersistent : SessionState → Bool
  | .pendingPersistent _ => true
  | _ => false

/-- Timer bookkeeping actions (schedule/cancel), as opposed to frames. -/
def WsAction.isTimerAdmin : WsAction → Bool
  | .timeoutSchedule _ _ => true
  | .timeoutCancel _ => true
  | _ => false

theorem arm_state (tm : TimeoutManager) (now : Nat) (w : TimeoutWindow)
    (s : TimeoutState) : ((TimeoutManager.arm tm now w s).1).state = s := by
  unfold TimeoutManager.arm
  split <;> rfl

theorem arm_acts_admin (tm : TimeoutManager) (now : Nat) (w : TimeoutWindow)
    (s : TimeoutState) :
    ∀ a ∈ (TimeoutManager.arm tm now w s).2, a.isTimerAdmin = true := by
  intro a ha
  unfold TimeoutManager.arm at ha
  split at ha
  · rcases List.mem_append.mp ha with hmem | hmem
    · cases htm : tm.timeout with
      | none =>
        rw [htm] at hmem
        simp at hmem
      | some t =>
        rw [htm] at hmem
        rw [List.mem_singleton.mp hmem]
        rfl
    · rw [List.mem_singleton.mp hmem]
      rfl
  · simp at ha

theorem handle_server_conn_preserves (P : CryptoPrims) (c : ConnInner) (uj : Jid)
    (ct st : List Nat) (secret : Option (List Nat)) :
    (ConnInner.handle_server_conn P c uj ct st secret).1.websocket_state =
        c.websocket_state ∧
      (ConnInner.handle_server_conn P c uj ct st secret).1.epoch = c.epoch ∧
      (ConnInner.handle_server_conn P c uj ct st secret).1.requests = c.requests ∧
      (ConnInner.handle_server_conn P c uj ct st secret).1.messages_tag_counter =
        c.messages_tag_counter := by
  obtain ⟨u, r, cnt, ss, ws, ep⟩ := c
  cases ss with
  | pendingNew pk0 pub0 cid0 =>
    cases secret with
    | none => exact ⟨rfl, rfl, rfl, rfl⟩
    | some s =>
      cases pk0 with
      | none => exact ⟨rfl, rfl, rfl, rfl⟩
      | some k =>
        unfold ConnInner.handle_server_conn
        cases hc : calculate_secret_keys P s k with
        | none => simp [hc]
        | some em =>
          obtain ⟨e, m⟩ := em
          simp [hc]
  | pendingPersistent ps0 => exact ⟨rfl, rfl, rfl, rfl⟩
  | established ps0 => exact ⟨rfl, rfl, rfl, rfl⟩
  | teardown => exact ⟨rfl, rfl, rfl, rfl⟩

theorem handle_server_challenge_ws (P : CryptoPrims) (c : ConnInner)
    (challenge : List Nat) (cb : Nat) :
    (ConnInner.handle_server_challenge P c challenge cb).1.websocket_state =
      c.websocket_state := by
  obtain ⟨u, r, cnt, ss, ws, ep⟩ := c
  cases ss <;> cases ws <;> rfl

theorem send_binary_message_epoch (P : CryptoPrims) (iv : List Nat) (c : ConnInner)
    (tag : Option (List Nat)) (metric : Nat) (message : List Nat) (cb : Nat) :
    (ConnInner.send_binary_message P iv c tag metric message cb).1.epoch = c.epoch := by
  obtain ⟨u, r, cnt, ss, ws, ep⟩ := c
  cases ss <;> cases tag <;> cases ws <;> rfl

def psW : PersistentSession :=
  ⟨strBytes "ct", strBytes "st", List.replicate 8 0, List.replicate 32 0,
   List.replicate 32 0⟩

def cEpoch5 : ConnInner := { with_persistent_session_inner psW with epoch := 5 }

/-- C4 (counterexample): the `Conn` transition into `Established` keeps the
current epoch instead of resetting it. -/
theorem epoch_discipline_counterexample :
    (cEpoch5.handle_server_conn idPrims ⟨[], false⟩ [] []
        none).1.session_state.isEstablished = true ∧
      (cEpoch5.handle_server_conn idPrims ⟨[], false⟩ [] [] none).1.epoch = 5 := by
  exact ⟨rfl, rfl⟩

/-- C4 (amended): per-operation epoch effects — `send_app_message` and
`send_message_read` advance the epoch by exactly one;
`send_message_played` performs its one increment and then never completes
(the nested `send_app_message` re-locks the held mutex), so on the state at
its point of divergence the epoch has advanced by exactly one and no played
event was sent; `handle_server_conn` (including both transitions into
`Established`) leaves the epoch unchanged; both initial states start it at
0. The counter is therefore non-decreasing but not reset on `Established`,
and not every outgoing application event completes with exactly one
increment. -/
theorem epoch_discipline_amended (P : CryptoPrims) (iv : List Nat) (c : ConnInner)
    (tag : Option (List Nat)) (metric : Nat) (appMsg : Nat → List Nat) (cb : Nat)
    (uj : Jid) (ct st : List Nat) (secret : Option (List Nat))
    (pk pubk cid : List Nat) (ps : PersistentSession) :
    (ConnInner.send_app_message P iv c tag metric appMsg cb).1.epoch = c.epoch + 1 ∧
      (send_message_played c).epoch = c.epoch + 1 ∧
      (send_message_read P iv c appMsg cb).1.epoch = c.epoch + 1 ∧
      (ConnInner.handle_server_conn P c uj ct st secret).1.epoch = c.epoch ∧
      (new_inner pk pubk cid).epoch = 0 ∧
      (with_persistent_session_inner ps).epoch = 0 := by
  refine ⟨?_, rfl, ?_, (handle_server_conn_preserves P c uj ct st secret).2.1, rfl, rfl⟩
  · exact send_binary_message_epoch P iv { c with epoch := c.epoch + 1 } tag metric
      (appMsg (c.epoch + 1)) cb
  · exact send_binary_message_epoch P iv { c with epoch := c.epoch + 1 } none METRIC_READ
      (appMsg (c.epoch + 1)) cb

def tmW : TimeoutManager := ⟨0, 16000, .normal, none, 2⟩

def cReq : ConnInner :=
  { user_jid := none, requests := [(strBytes "1", 7)], messages_tag_counter := 2,
    session_state := .established psW, websocket_state := .connected tmW, epoch := 0 }

/-- C5 (counterexample): `ws_disconnect` tears the session down but leaves
the pending-request map as it was — an entry registered before teardown
survives it. -/
theorem pending_map_teardown_counterexample :
    (ws_disconnect cReq).1.session_state = SessionState.teardown ∧
      (ws_disconnect cReq).1.requests = [(strBytes "1", 7)] ∧
      (ws_disconnect cReq).1.requests ≠ [] := by
  exact ⟨rfl, rfl, by decide⟩

/-- C5 (amended): both teardown paths (`ws_disconnect` and a
peer-initiated `handle_server_disconnect`) set `Teardown` without touching
the pending-request map; an entry is removed only when an inbound frame
carries its tag, in which case exactly that key is erased and its callback
invoked. -/
theorem pending_map_teardown_amended (P : CryptoPrims) (c : ConnInner) (now : Nat)
    (msg : InboundJson) (tm : TimeoutManager) (cb : Nat)
    (h : c.websocket_state = .connected tm)
    (hlook : mapLookup c.requests msg.tag = some cb) :
    (ws_disconnect c).1.requests = c.requests ∧
      (ws_disconnect c).1.session_state = SessionState.teardown ∧
      (ConnInner.handle_server_disconnect c).requests = c.requests ∧
      (ConnInner.handle_server_disconnect c).session_state = SessionState.teardown ∧
      (ws_on_message P c now msg).1.requests = mapErase c.requests msg.tag ∧
      WsAction.invokeCallback cb ∈ (ws_on_message P c now msg).2 := by
  obtain ⟨u, r, cnt, ss, ws, ep⟩ := c
  have h' : ws = .connected tm := h
  subst h'
  refine ⟨rfl, rfl, rfl, rfl, ?_, ?_⟩
  · rcases harm : TimeoutManager.arm tm now PING_TIMEOUT .normal with ⟨tm1, armActs⟩
    simp only [ws_on_message, harm, hlook]
  · rcases harm : TimeoutManager.arm tm now PING_TIMEOUT .normal with ⟨tm1, armActs⟩
    simp only [ws_on_message, harm, hlook]
    exact List.mem_append_right _ (List.mem_singleton.mpr rfl)

theorem pending_map_teardown_amended_witness :
    cReq.websocket_state = WebsocketState.connected tmW ∧
      mapLookup cReq.requests (strBytes "1") = some 7 ∧
      ((ws_disconnect cReq).1.requests = cReq.requests ∧
        (ws_disconnect cReq).1.session_state = SessionState.teardown ∧
        (ConnInner.handle_server_disconnect cReq).requests = cReq.requests ∧
        (ConnInner.handle_server_disconnect cReq).session_state = SessionState.teardown ∧
        (ws_on_message idPrims cReq 0 ⟨strBytes "1", .other⟩).1.requests =
          mapErase cReq.requests (strBytes "1") ∧
        WsAction.invokeCallback 7 ∈ (ws_on_message idPrims cReq 0 ⟨strBytes "1", .other⟩).2) :=
  ⟨rfl, by decide,
    pending_map_teardown_amended idPrims cReq 0 ⟨strBytes "1", .other⟩ tmW 7 rfl (by decide)⟩

/-- C10: an application send while the session is not `Established` changes
nothing but the epoch — `send_app_message` increments it before
`send_binary_message` bails out, so no frame is emitted, no tag is
allocated and no callback is registered. -/
theorem non_established_send (P : CryptoPrims) (iv : List Nat) (c : ConnInner)
    (tag : Option (List Nat)) (metric : Nat) (appMsg : Nat → List Nat) (cb : Nat)
    (h : c.session_state.isEstablished = false) :
    ConnInner.send_app_message P iv c tag metric appMsg cb =
      ({ c with epoch := c.epoch + 1 }, []) := by
  obtain ⟨u, r, cnt, ss, ws, ep⟩ := c
  cases ss with
  | established ps => simp [SessionState.isEstablished] at h
  | pendingNew pk0 pub0 cid0 => rfl
  | pendingPersistent ps0 => rfl
  | teardown => rfl

theorem non_established_send_witness :
    (new_inner [] [] []).session_state.isEstablished = false ∧
      ConnInner.send_app_message idPrims [] (new_inner [] [] []) none 0 (fun _ => []) 0 =
        ({ new_inner [] [] [] with epoch := 1 }, []) :=
  ⟨by decide,
    non_established_send idPrims [] (new_inner [] [] []) none 0 (fun _ => []) 0 (by decide)⟩

def constPrims : CryptoPrims :=
  { hmacSha256 := fun _ _ => List.replicate 32 1
    aesEnc := fun _ _ m => m
    aesDec := fun _ _ c => c
    agree := fun _ _ => []
    hkdf80 := fun _ => List.replicate 80 0 }

/-- C6 (counterexample): with primitives under which the pairing HMAC check
fails for the all-zero secret (`calculate_secret_keys` returns an error),
a `Conn` handled in `PendingPersistent` still transitions to `Established`
— that path reuses the stored keys without any check. -/
theorem established_verification_counterexample :
    calculate_secret_keys constPrims (List.replicate 144 0) (List.replicate 32 9) =
        none ∧
      ((ConnInner.handle_server_conn constPrims (with_persistent_session_inner psW)
          ⟨[], false⟩ [] []
          (some (List.replicate 144 0))).1.session_state.isEstablished = true) := by
  exact ⟨by decide, rfl⟩

/-- C6 (amended): outside the (unchecked) `PendingPersistent` path, a
`Conn` produces a new `Established` state only from `PendingNew` with a
present secret and private key whose `calculate_secret_keys` — and hence
its pairing HMAC check — succeeded; otherwise the state is left exactly as
it was. -/
theorem established_verification_amended (P : CryptoPrims) (c : ConnInner)
    (uj : Jid) (ct st : List Nat) (secret : Option (List Nat))
    (h : c.session_state.isPendingPersistent = false)
    (hest : (ConnInner.handle_server_conn P c uj ct st
        secret).1.session_state.isEstablished = true) :
    (ConnInner.handle_server_conn P c uj ct st secret).1 = c ∨
      ∃ s k pub cid e m, c.session_state = .pendingNew (some k) pub cid ∧
        secret = some s ∧ calculate_secret_keys P s k = some (e, m) := by
  obtain ⟨u, r, cnt, ss, ws, ep⟩ := c
  cases ss with
  | pendingNew pk0 pub0 cid0 =>
    cases secret with
    | none => exact Or.inl rfl
    | some s =>
      cases pk0 with
      | none => exact Or.inl rfl
      | some k =>
        cases hc : calculate_secret_keys P s k with
        | none =>
          exfalso
          unfold ConnInner.handle_server_conn at hest
          simp only [hc] at hest
          exact Bool.noConfusion hest
        | some em =>
          obtain ⟨e, m⟩ := em
          exact Or.inr ⟨s, k, pub0, cid0, e, m, rfl, rfl, hc⟩
  | pendingPersistent ps0 => exact Bool.noConfusion h
  | established ps0 => exact Or.inl rfl
  | teardown => exact Bool.noConfusion hest

theorem established_verification_amended_witness :
    (new_inner (List.replicate 32 9) [] []).session_state.isPendingPersistent = false ∧
      (ConnInner.handle_server_conn idPrims (new_inner (List.replicate 32 9) [] [])
          ⟨[], false⟩ [] []
          (some (List.replicate 144 0))).1.session_state.isEstablished = true ∧
      ((ConnInner.handle_server_conn idPrims (new_inner (List.replicate 32 9) [] [])
            ⟨[], false⟩ [] [] (some (List.replicate 144 0))).1 =
          new_inner (List.replicate 32 9) [] [] ∨
        ∃ s k pub cid e m,
          (new_inner (List.replicate 32 9) [] []).session_state =
              .pendingNew (some k) pub cid ∧
            some (List.replicate 144 0) = some s ∧
            calculate_secret_keys idPrims s k = some (e, m)) :=
  ⟨by decide, by decide,
    established_verification_amended idPrims (new_inner (List.replicate 32 9) [] [])
      ⟨[], false⟩ [] [] (some (List.replicate 144 0)) (by decide) (by decide)⟩

theorem ws_on_message_ws_state (P : CryptoPrims) (c : ConnInner) (now : Nat)
    (msg : InboundJson) (tm : TimeoutManager)
    (h : c.websocket_state = .connected tm) :
    (ws_on_message P c now msg).1.websocket_state =
      .connected (TimeoutManager.arm tm now PING_TIMEOUT .normal).1 := by
  obtain ⟨u, r, cnt, ss, ws, ep⟩ := c
  have h' : ws = .connected tm := h
  subst h'
  obtain ⟨mtag, pay⟩ := msg
  rcases harm : TimeoutManager.arm tm now PING_TIMEOUT .normal with ⟨tm1, armActs⟩
  cases hl : mapLookup r mtag with
  | some cb => simp only [ws_on_message, harm, hl]
  | none =>
    cases pay with
    | connectionAck uj ct st secret =>
      rcases hh : ConnInner.handle_server_conn P
          ⟨u, r, cnt, ss, .connected tm1, ep⟩ uj ct st secret with ⟨c2, res⟩
      have hpres := (handle_server_conn_preserves P
          ⟨u, r, cnt, ss, .connected tm1, ep⟩ uj ct st secret).1
      rw [hh] at hpres
      cases res with
      | some p =>
        obtain ⟨ps, uj2⟩ := p
        simp only [ws_on_message, harm, hl, hh]
        exact hpres
      | none =>
        simp only [ws_on_message, harm, hl, hh]
        exact hpres
    | challengeRequest ch =>
      rcases hch : ConnInner.handle_server_challenge P
          ⟨u, r, cnt, ss, .connected tm1, ep⟩ ch 0 with ⟨c2, acts⟩
      have hpres := handle_server_challenge_ws P
          ⟨u, r, cnt, ss, .connected tm1, ep⟩ ch 0
      rw [hch] at hpres
      simp only [ws_on_message, harm, hl, hch]
      exact hpres
    | disconnect replaced => simp only [ws_on_message, harm, hl]; rfl
    | other => simp only [ws_on_message, harm, hl]

/-- C7: while the websocket is connected, every inbound frame re-arms the
keep-alive manager in `Normal` mode; a `Normal` expiry with the current
token sends exactly the text frame `"?,,"` (the rest of the emitted actions
are timer bookkeeping) and leaves the manager in `Deathline` mode; a
`Deathline` expiry with the current token closes the socket abnormally. -/
theorem keepalive_timer (P : CryptoPrims) (c : ConnInner) (nowMsg nowTo : Nat)
    (msg : InboundJson) (event : Nat) (tm : TimeoutManager)
    (h : c.websocket_state = .connected tm) :
    (∃ tm2, (ws_on_message P c nowMsg msg).1.websocket_state = .connected tm2 ∧
        tm2.state = .normal) ∧
      (tm.state = .normal → event = tm.token →
        (c.on_timeout nowTo event).2.head? =
            some (WsAction.sendText (strBytes "?,,")) ∧
          (∀ a ∈ (c.on_timeout nowTo event).2.tail, a.isTimerAdmin = true) ∧
          ∃ tm3, (c.on_timeout nowTo event).1.websocket_state = .connected tm3 ∧
            tm3.state = .deathline) ∧
      (tm.state = .deathline → event = tm.token →
        (c.on_timeout nowTo event).2 = [WsAction.close false]) := by
  refine ⟨⟨(TimeoutManager.arm tm nowMsg PING_TIMEOUT .normal).1,
    ws_on_message_ws_state P c nowMsg msg tm h,
    arm_state tm nowMsg PING_TIMEOUT .normal⟩, ?_, ?_⟩
  · intro hstate htok
    obtain ⟨u, r, cnt, ss, ws, ep⟩ := c
    have h' : ws = .connected tm := h
    subst h'
    have hto : TimeoutManager.on_timeout tm event =
        ({ tm with timeout := none }, some TimeoutState.normal) := by
      unfold TimeoutManager.on_timeout
      rw [if_pos htok, hstate]
    rcases harm : TimeoutManager.arm { tm with timeout := none } nowTo
        RESPONSE_TIMEOUT .deathline with ⟨tm2, acts⟩
    have hadmin := arm_acts_admin { tm with timeout := none } nowTo
        RESPONSE_TIMEOUT .deathline
    rw [harm] at hadmin
    have hst2 := arm_state { tm with timeout := none } nowTo
        RESPONSE_TIMEOUT .deathline
    rw [harm] at hst2
    have hadmin2 : ∀ a ∈ acts, a.isTimerAdmin = true := by simpa using hadmin
    refine ⟨?_, ?_, tm2, ?_, hst2⟩ <;>
      simp only [ConnInner.on_timeout, hto, harm, List.head?_cons, List.tail_cons]
    exact hadmin2
  · intro hstate htok
    obtain ⟨u, r, cnt, ss, ws, ep⟩ := c
    have h' : ws = .connected tm := h
    subst h'
    have hto : TimeoutManager.on_timeout tm event =
        ({ tm with timeout := none }, some TimeoutState.deathline) := by
      unfold TimeoutManager.on_timeout
      rw [if_pos htok, hstate]
    simp only [ConnInner.on_timeout, hto]

theorem keepalive_timer_witness :
    cReq.websocket_state = WebsocketState.connected tmW ∧
      ((∃ tm2, (ws_on_message idPrims cReq 0 ⟨strBytes "9", .other⟩).1.websocket_state =
            .connected tm2 ∧ tm2.state = .normal) ∧
        (tmW.state = .normal → 2 = tmW.token →
          (cReq.on_timeout 0 2).2.head? = some (WsAction.sendText (strBytes "?,,")) ∧
            (∀ a ∈ (cReq.on_timeout 0 2).2.tail, a.isTimerAdmin = true) ∧
            ∃ tm3, (cReq.on_timeout 0 2).1.websocket_state = .connected tm3 ∧
              tm3.state = .deathline) ∧
        (tmW.state = .deathline → 2 = tmW.token →
          (cReq.on_timeout 0 2).2 = [WsAction.close false])) :=
  ⟨rfl, keepalive_timer idPrims cReq 0 0 ⟨strBytes "9", .other⟩ 2 tmW rfl⟩
